import Mathlib

/-!
Formal model of the music-dedupe core (`src/app/core.py`, `src/app/core_optimized.py`,
`src/app.py`).

Modelling conventions:
* Python strings are `List Char` (`Str`); the string primitives the code uses
  (`lower`, `strip`, `split`, `in`, `startswith`, `endswith`, `os.path.basename`,
  `os.path.splitext`) are re-implemented below by structural recursion so that
  concrete runs reduce inside the kernel;
* a metadata row / Python dict is the structure `FileMetadata`; the SQLite
  table keyed by the primary key `path` is a `List FileMetadata`;
* fallible external effects (filesystem size, mutagen tag reading, SQLite row
  writes, `os.remove`) are explicit oracle parameters, `none` / `false`
  standing for the raised exception;
* the external fuzzy-matching library (`thefuzz`) is an opaque collaborator:
  every clustering definition is parametric in the similarity scorer
  `sim : Str → Str → Nat`;
* `size_mb` (a Python float) is modelled as a natural number: no claim depends
  on fractional sizes, only on defaulting to `0` and on byte-size comparisons.
-/

namespace MusicDedupe

/-- A Python string: its list of characters. -/
abbrev Str := List Char

/-- String literal embedding. -/
def str (s : String) : Str := s.toList

/-- Python `s.lower()` (the library strings are ASCII). -/
def strLower (s : Str) : Str := s.map Char.toLower

/-- Python `s.strip()`: drop whitespace from both ends. -/
def strTrim (s : Str) : Str :=
  ((s.dropWhile Char.isWhitespace).reverse.dropWhile Char.isWhitespace).reverse

/-- Python `s1 < s2`: lexicographic comparison by code point. -/
def strLt : Str → Str → Bool
  | [], [] => false
  | [], _ :: _ => true
  | _ :: _, [] => false
  | x :: xs, y :: ys => if x < y then true else if y < x then false else strLt xs ys

/-- Python `sep in s`: substring containment. -/
def strContainsSub (sep : Str) : Str → Bool
  | [] => sep.isPrefixOf []
  | c :: rest => sep.isPrefixOf (c :: rest) || strContainsSub sep rest

/-- Fuel-driven worker for `strSplitOn` (fuel keeps the recursion structural,
`strSplitOn` always supplies enough of it). -/
def splitOnFuel (sep : Str) : Nat → Str → Str → List Str
  | 0, s, acc => [acc.reverse ++ s]
  | fuel + 1, s, acc =>
    match s with
    | [] => [acc.reverse]
    | c :: rest =>
      if sep ≠ [] ∧ sep.isPrefixOf s then
        acc.reverse :: splitOnFuel sep fuel (s.drop sep.length) []
      else splitOnFuel sep fuel rest (c :: acc)

/-- Python `s.split(sep)`: non-overlapping left-to-right splitting. -/
def strSplitOn (sep s : Str) : List Str :=
  splitOnFuel sep (s.length + 1) s []

/-- Python `sep.join(parts)`. -/
def strIntercalate (sep : Str) : List Str → Str
  | [] => []
  | [x] => x
  | x :: y :: rest => x ++ sep ++ strIntercalate sep (y :: rest)

/-- Python `s.startswith(pre)`. -/
def strStartsWith (s pre : Str) : Bool := pre.isPrefixOf s

/-- Python `s.endswith(post)`. -/
def strEndsWith (s post : Str) : Bool := post.isSuffixOf s

/-- `os.path.basename` for POSIX paths: the part after the last `/`. -/
def basename (p : Str) : Str := (strSplitOn (str ("/")) p).getLastD p

/-- `os.path.splitext`: split at the last dot, unless every character of the
name before that dot is itself a dot (so `.bashrc` keeps no extension). -/
def splitext (name : Str) : Str × Str :=
  match name.reverse.findIdx? (fun c => c = ('.' : Char)) with
  | none => (name, [])
  | some i =>
    let dotPos := name.length - 1 - i
    if (name.take dotPos).all (fun c => c = ('.' : Char)) then (name, [])
    else (name.take dotPos, name.drop dotPos)

/-- Stable insertion step of `pySort` (the comparator `lt` is strict:
an element is inserted before the first element not below it, which keeps
equal keys in their original order exactly as Python's stable `sorted`). -/
def insertByLt (lt : α → α → Bool) (x : α) : List α → List α
  | [] => [x]
  | y :: ys => if lt y x then y :: insertByLt lt x ys else x :: y :: ys

/-- Python's stable `sorted` with a strict comparator derived from the key. -/
def pySort (lt : α → α → Bool) : List α → List α
  | [] => []
  | x :: xs => insertByLt lt x (pySort lt xs)

/-- Python list indexing `l[i]`: non-negative indices from the front, negative
indices from the back, `none` = `IndexError`. -/
def pyIndex (l : List α) (i : Int) : Option α :=
  if 0 ≤ i then l.get? i.toNat
  else if 0 ≤ i + l.length then l.get? (i + (l.length : Int)).toNat else none

/-! ## Data model -/

/-- One metadata row (Python dataclass `FileMetadata` in `core.py`, also the
dict produced by `get_metadata` in `core_optimized.py`). -/
structure FileMetadata where
  path : Str
  filename : Str
  artist : Str := []
  title : Str := []
  album : Str := []
  album_artist : Str := []
  duration : Nat := 0
  size_mb : Nat := 0
  bitrate : Nat := 0
  search_text : Str := []
deriving Repr, DecidableEq

/-- The metadata table: a list of rows; the schema invariant (path is the
primary key) is the predicate `pathsNodup` below. -/
abbrev Store := List FileMetadata

/-- Row lookup by primary key (`SELECT * FROM metadata WHERE path = ?`). -/
def dbGet (s : Store) (p : Str) : Option FileMetadata :=
  s.find? (fun r => r.path == p)

/-- `INSERT OR REPLACE` on the primary key `path`: if a row with the same path
exists it is replaced in place, otherwise the new row is inserted. -/
def insertOrReplace (s : Store) (m : FileMetadata) : Store :=
  if s.any (fun r => r.path == m.path) then
    s.map (fun r => if r.path == m.path then m else r)
  else s ++ [m]

/-- The table never holds two rows with the same path. -/
def pathsNodup (s : Store) : Prop := (s.map (fun r => r.path)).Nodup

/-- `MetadataDB.save_metadata` (`core.py` lines 152-165): a single
`INSERT OR REPLACE`, committed on its own. -/
def MetadataDB.save_metadata (s : Store) (m : FileMetadata) : Store :=
  insertOrReplace s m

/-- The row-by-row body of `MetadataDB.batch_save`: execute each insert inside
the open transaction (`writeOk m = false` models the insert raising); on a
failure the transaction is abandoned (`none`). -/
def MetadataDB.batch_save_go (writeOk : FileMetadata → Bool) (txn : Store) :
    List FileMetadata → Option Store
  | [] => some txn
  | m :: rest =>
    if writeOk m then MetadataDB.batch_save_go writeOk (insertOrReplace txn m) rest
    else none

/-- `MetadataDB.batch_save` (`core.py` lines 167-190): `BEGIN TRANSACTION`,
execute every insert, `commit`; on any failure `rollback` (the store is left as
it was) and re-raise.  The second component is `true` iff the call raised. -/
def MetadataDB.batch_save (writeOk : FileMetadata → Bool) (s : Store)
    (metadata_list : List FileMetadata) : Store × Bool :=
  match MetadataDB.batch_save_go writeOk s metadata_list with
  | some txn => (txn, false)
  | none => (s, true)

/-- `MetadataDB.delete_by_path` (`core.py` lines 220-224). -/
def MetadataDB.delete_by_path (s : Store) (p : Str) : Store :=
  s.filter (fun r => r.path != p)

/-- `MetadataDB.delete_batch` (`core.py` lines 226-234):
`DELETE FROM metadata WHERE path IN (...)`. -/
def MetadataDB.delete_batch (s : Store) (paths : List Str) : Store :=
  s.filter (fun r => !(paths.contains r.path))

/-- The last record of the list carrying the given path, if any (used to state
"a read returns the most recently upserted values"). -/
def lastWithPath (p : Str) : List FileMetadata → Option FileMetadata
  | [] => none
  | m :: rest =>
    match lastWithPath p rest with
    | some x => some x
    | none => if m.path == p then some m else none

/-! ## Metadata extraction -/

/-- What a successful mutagen read yields: tag value lists plus the stream
info (`audio.info.length` truncated to seconds, `audio.info.bitrate / 1000`). -/
structure TagData where
  artist : List Str := []
  title : List Str := []
  album : List Str := []
  albumartist : List Str := []
  length : Nat := 0
  bitrate : Nat := 0
deriving Repr, DecidableEq

/-- The two fallible external reads of extraction: `os.path.getsize` (already
converted to rounded MB) and the mutagen tag/stream read; `none` models the
call raising. -/
structure FileOracle where
  size_mb : Option Nat := none
  audio : Option TagData := none
deriving Repr, DecidableEq

/-- `AudioMetadataExtractor._get_tag` (`core.py` lines 405-410) and the inner
`get_tag_display` of `core_optimized.get_metadata`: keep truthy values,
strip them, join with `" / "`. -/
def get_tag_display (values : List Str) : Str :=
  let valid := (values.filter (fun v => v != ([] : Str))).map strTrim
  if valid = [] then [] else strIntercalate (str (" / ")) valid

/-- `AudioMetadataExtractor._infer_title_from_filename` (`core.py` lines
412-419): `base.split(" - ", 1)`; the source returns `parts[1]` in both arms
of its conditional (`parts[1] if artist else parts[1]`), and never touches the
artist. -/
def infer_title_from_filename (filename : Str) (artist : Str) : Str :=
  let base := (splitext filename).1
  if strContainsSub (str (" - ")) base then
    let parts := strSplitOn (str (" - ")) base
    let rest := strIntercalate (str (" - ")) (parts.drop 1)
    if artist ≠ [] then rest else rest
  else base

/-- `AudioMetadataExtractor.extract` (`core.py` lines 335-393).  Every
fallible read is wrapped in its own `try`: a size failure falls back to `0.0`,
a tag-read failure leaves tags empty and duration/bitrate `0`.  Only `.mp3`
and `.flac` paths are read for tags at all. -/
def AudioMetadataExtractor.extract (oracle : FileOracle) (path : Str) :
    FileMetadata :=
  let filename := basename path
  let size_mb := oracle.size_mb.getD 0
  let isAudioExt := strEndsWith (strLower path) (str (".mp3"))
    || strEndsWith (strLower path) (str (".flac"))
  let tags : TagData :=
    if isAudioExt then oracle.audio.getD {} else {}
  let duration := if isAudioExt then (oracle.audio.map TagData.length).getD 0 else 0
  let bitrate := if isAudioExt then (oracle.audio.map TagData.bitrate).getD 0 else 0
  let artist := get_tag_display tags.artist
  let title0 := get_tag_display tags.title
  let album := get_tag_display tags.album
  let album_artist := get_tag_display tags.albumartist
  let title :=
    if title0 = [] then infer_title_from_filename filename artist else title0
  let search_text := strLower (artist ++ str (" ") ++ title ++ str (" ") ++ filename)
  { path := path, filename := filename,
    artist := strTrim artist, title := strTrim title, album := strTrim album,
    album_artist := strTrim album_artist,
    duration := duration, size_mb := size_mb, bitrate := bitrate,
    search_text := search_text }

/-- `get_metadata` of `core_optimized.py` (lines 221-276).  The
`os.path.getsize` call sits outside every `try` block, so its failure
propagates (`none`); the tag read is wrapped in a bare `try/except: pass`.
Title/artist inference splits the stem on every `" - "` occurrence and uses
`parts[0]` / `parts[1]`. -/
def get_metadata (oracle : FileOracle) (path : Str) : Option FileMetadata :=
  match oracle.size_mb with
  | none => none
  | some size_mb =>
    let filename := basename path
    let isAudioExt := strEndsWith (strLower path) (str (".mp3"))
      || strEndsWith (strLower path) (str (".flac"))
    let tags : TagData :=
      if isAudioExt then oracle.audio.getD {} else {}
    let duration := if isAudioExt then (oracle.audio.map TagData.length).getD 0 else 0
    let bitrate := if isAudioExt then (oracle.audio.map TagData.bitrate).getD 0 else 0
    let artist0 := get_tag_display tags.artist
    let title0 := get_tag_display tags.title
    let inferred :=
      if title0 = [] then
        let base := (splitext filename).1
        if strContainsSub (str (" - ")) base then
          let parts := strSplitOn (str (" - ")) base
          ((if artist0 = [] then parts.headD [] else artist0), parts.getD 1 [])
        else (artist0, base)
      else (artist0, title0)
    let artist := inferred.1
    let title := inferred.2
    let search_text := strLower (artist ++ str (" ") ++ title ++ str (" ") ++ filename)
    some { path := path, filename := filename,
           artist := strTrim artist, title := strTrim title,
           album := strTrim (get_tag_display tags.album),
           album_artist := strTrim (get_tag_display tags.albumartist),
           duration := duration, size_mb := size_mb, bitrate := bitrate,
           search_text := search_text }

/-- The record built by `MusicScanner._get_metadata` in `src/app.py`
(lines 59-99): no album fields, no search text, bitrate is the literal
string `"Unknown"`. -/
structure ScanRecord where
  path : Str
  filename : Str
  artist : Str
  title : Str
  duration : Nat
  size_mb : Nat
  bitrate : Str
deriving Repr, DecidableEq

/-- `MusicScanner._get_metadata` (`src/app.py` lines 59-99).  As in
`core_optimized.py`, `os.path.getsize` runs outside the `try`, so a size
failure propagates; inference runs only when BOTH artist and title are empty
and splits the stem on every `" - "`. -/
def MusicScanner.get_metadata (oracle : FileOracle) (path : Str) :
    Option ScanRecord :=
  match oracle.size_mb with
  | none => none
  | some size_mb =>
    let filename := basename path
    let isAudioExt := strEndsWith (strLower path) (str (".mp3"))
      || strEndsWith (strLower path) (str (".flac"))
    let tags : TagData :=
      if isAudioExt then oracle.audio.getD {} else {}
    let duration := if isAudioExt then (oracle.audio.map TagData.length).getD 0 else 0
    let artist0 := tags.artist.headD []
    let title0 := tags.title.headD []
    let inferred :=
      if artist0 = [] ∧ title0 = [] then
        let base := (splitext filename).1
        if strContainsSub (str (" - ")) base then
          let parts := strSplitOn (str (" - ")) base
          (parts.headD [], parts.getD 1 [])
        else (artist0, base)
      else (artist0, title0)
    some { path := path, filename := filename,
           artist := strTrim inferred.1, title := strTrim inferred.2,
           duration := duration, size_mb := size_mb,
           bitrate := str ("Unknown") }

/-! ## Clustering -/

/-- The sort/compare key of `task_scan_and_group_optimized`
(`core_optimized.py` line 322): the record's `search_text`. -/
def search_text_key (f : FileMetadata) : Str := f.search_text

/-- The grouping key of `task_scan_and_group` (`core.py` line 681):
`(title or stem(filename)).lower().strip()`. -/
def title_key (f : FileMetadata) : Str :=
  strTrim (strLower (if f.title = [] then (splitext f.filename).1 else f.title))

/-- The shared loop of both clustering passes, written exactly as the Python
loop: `current_group` is `anchor :: grouptail` (new members are appended at the
end, the anchor stays the first member), `cands` is the mutable `candidates`
list. -/
def cluster_go (sim : Str → Str → Nat) (threshold : Nat) (key : FileMetadata → Str)
    (anchor : FileMetadata) (grouptail : List FileMetadata)
    (cands : List (List FileMetadata)) :
    List FileMetadata → List (List FileMetadata)
  | [] =>
    if 1 < (anchor :: grouptail).length then cands ++ [anchor :: grouptail] else cands
  | curr :: rest =>
    if threshold < sim (key anchor) (key curr) then
      cluster_go sim threshold key anchor (grouptail ++ [curr]) cands rest
    else
      cluster_go sim threshold key curr []
        (if 1 < (anchor :: grouptail).length then cands ++ [anchor :: grouptail] else cands)
        rest

/-- The clustering pass of `task_scan_and_group` (`core.py` lines 676-706):
sort by the title key, compare title keys with `fuzz.ratio`, threshold `> 85`.
The external scorer is the parameter `ratio`. -/
def task_scan_and_group_cluster (ratio : Str → Str → Nat)
    (files : List FileMetadata) : List (List FileMetadata) :=
  match pySort (fun a b => strLt (title_key a) (title_key b)) files with
  | [] => []
  | f :: fs => cluster_go ratio 85 title_key f [] [] fs

/-- The clustering pass of `task_scan_and_group_optimized`
(`core_optimized.py` lines 322-342): sort by `search_text`, compare
`search_text` with `fuzz.token_set_ratio`, threshold `> 80`. -/
def task_scan_and_group_optimized_cluster (token_set_sim : Str → Str → Nat)
    (files : List FileMetadata) : List (List FileMetadata) :=
  match pySort (fun a b => strLt (search_text_key a) (search_text_key b)) files with
  | [] => []
  | f :: fs => cluster_go token_set_sim 80 search_text_key f [] [] fs

/-- Modelled from the claim's words (spec §4.4): sort the records by the key;
make one left-to-right pass keeping a current group anchored at its first
member; a score above the threshold appends the record, otherwise the group is
closed (emitted iff it has at least two members) and a new group starts
anchored at that record; the trailing group is emitted under the same rule. -/
def clusterSpecGo (sim : Str → Str → Nat) (threshold : Nat)
    (key : FileMetadata → Str) (group : List FileMetadata) :
    List FileMetadata → List (List FileMetadata)
  | [] => if 2 ≤ group.length then [group] else []
  | curr :: rest =>
    match group with
    | [] => []
    | anchor :: _ =>
      if threshold < sim (key anchor) (key curr) then
        clusterSpecGo sim threshold key (group ++ [curr]) rest
      else
        (if 2 ≤ group.length then [group] else [])
          ++ clusterSpecGo sim threshold key [curr] rest

/-- The clustering algorithm exactly as the claim states it, parametric in
similarity scorer, threshold and sort/compare key. -/
def clusterSpec (sim : Str → Str → Nat) (threshold : Nat)
    (key : FileMetadata → Str) (files : List FileMetadata) :
    List (List FileMetadata) :=
  match pySort (fun a b => strLt (key a) (key b)) files with
  | [] => []
  | f :: fs => clusterSpecGo sim threshold key [f] fs

/-! ## Scan state effects (claim C5) -/

/-- The pieces of `AppState` the scan touches: the in-memory working set
`state.files` and the metadata store. -/
structure WorkingState where
  files : List FileMetadata
  store : Store
deriving Repr, DecidableEq

/-- The state effect of `task_scan_and_group` (`core.py` lines 636-670) on the
working set and the store: drop in-memory records under `scan_dir`, then
stream the extraction results (`found`, in walk order) in batches — extending
`state.files` and batch-saving each batch.  Batch boundaries do not change the
final state (writes are assumed to succeed here), so the net effect is one
append plus one fold of upserts.  The store is never purged. -/
def task_scan_and_group_state (scan_dir : Str) (found : List FileMetadata)
    (st : WorkingState) : WorkingState :=
  { files := st.files.filter (fun f => !(strStartsWith f.path scan_dir)) ++ found
    store := found.foldl insertOrReplace st.store }

/-- The state effect of `task_scan_and_group_optimized`
(`core_optimized.py` lines 278-317): with a `target_path` it behaves like
`task_scan_and_group_state`; with none it clears both the working set and the
whole store first. -/
def task_scan_and_group_optimized_state (target_path : Option Str)
    (found : List FileMetadata) (st : WorkingState) : WorkingState :=
  match target_path with
  | some tp =>
    { files := st.files.filter (fun f => !(strStartsWith f.path tp)) ++ found
      store := found.foldl insertOrReplace st.store }
  | none => { files := found, store := found.foldl insertOrReplace [] }

/-! ## AI verification (claim C6) -/

/-- One entry of the classification-service response. -/
structure AiResult where
  group_id : Int
  is_duplicate : Bool
  reason : Option Str := none
deriving Repr, DecidableEq

/-- A confirmed duplicate as `task_analyze_with_gemini` appends it to
`state.results`. -/
structure ConfirmedDuplicate where
  files : List FileMetadata
  reason : Str
deriving Repr, DecidableEq

/-- The response-processing loop of `task_analyze_with_gemini`
(`core.py` lines 757-765): for each entry, if `is_duplicate` and
`group_id < len(state.candidates)` append the confirmation;
`state.candidates[gid]` is Python indexing, so a negative id reaches from the
end, and an id below `-len` raises `IndexError`, which the surrounding batch
`try` catches — dropping the rest of this response but keeping earlier
appends. -/
def task_analyze_results_go (candidates : List (List FileMetadata)) :
    List AiResult → List ConfirmedDuplicate
  | [] => []
  | res :: rest =>
    if res.is_duplicate then
      if res.group_id < (candidates.length : Int) then
        match pyIndex candidates res.group_id with
        | some g =>
          ⟨g, res.reason.getD (str ("AI判断重复"))⟩ ::
            task_analyze_results_go candidates rest
        | none => []
      else task_analyze_results_go candidates rest
    else task_analyze_results_go candidates rest

/-- One entry of the richer response contract of `src/app.py`. -/
structure AiVerdict where
  group_id : Int
  is_duplicate : Bool
  best_file_id : Option Int := none
  reason : Option Str := none
deriving Repr, DecidableEq

/-- The response-processing loop of `AIVerifier.verify` (`src/app.py` lines
201-209): `chunk[res["group_id"]]` carries no range check at all, so any
out-of-range id (positive or too negative) raises `IndexError` and the batch
`except` drops the rest of this response. -/
def AIVerifier.processResults {α : Type} (chunk : List α) :
    List AiVerdict → List (Option Str × α × Option Int)
  | [] => []
  | res :: rest =>
    if res.is_duplicate then
      match pyIndex chunk res.group_id with
      | some g => (res.reason, g, res.best_file_id) :: AIVerifier.processResults chunk rest
      | none => []
    else AIVerifier.processResults chunk rest

/-! ## Quality dedup (claim C7) -/

/-- A file as seen by the `os.walk` of `task_dedupe_quality`: directory,
stem and extension (as `os.path.splitext` returns them for its name) and its
byte size. -/
structure DiskFile where
  dir : Str
  stem : Str
  ext : Str
  size : Nat
deriving Repr, DecidableEq

/-- `os.path.join(root, f)`. -/
def DiskFile.path (f : DiskFile) : Str := f.dir ++ str ("/") ++ f.stem ++ f.ext

/-- `SUPPORTED_FORMATS` (`core.py` line 37). -/
def SUPPORTED_FORMATS : List Str :=
  [str (".mp3"), str (".flac"), str (".m4a"), str (".wma")]

/-- The format component of `quality_score` (`core.py` lines 786-800). -/
def formatRank (ext : Str) : Nat :=
  let e := strLower ext
  if ([str (".flac"), str (".wav")]).contains e then 3
  else if ([str (".m4a"), str (".aac")]).contains e then 2
  else if e = str (".mp3") then 1
  else 0

/-- `quality_score(path) = (format score, file size)`. -/
def quality_score (f : DiskFile) : Nat × Nat := (formatRank f.ext, f.size)

/-- Strict lexicographic comparison of Python `(int, int)` tuples, the order
`paths.sort(key=quality_score)` sorts by. -/
def pairLt (a b : Nat × Nat) : Bool :=
  Nat.blt a.1 b.1 || (a.1 == b.1 && Nat.blt a.2 b.2)

/-- `process_group` (`core.py` lines 802-825): groups of at most one member
are untouched; otherwise sort ascending by `quality_score`, keep the last
(`paths[-1]`), return the rest as the files to delete. -/
def process_group (paths : List DiskFile) : List DiskFile :=
  if paths.length ≤ 1 then []
  else (pySort (fun a b => pairLt (quality_score a) (quality_score b)) paths).dropLast

/-- The dict-building step of the grouping loop (`core.py` lines 828-836):
append the file to its stem's bucket, creating the bucket at the end on first
sight (Python dict insertion order). -/
def addToGroups (groups : List (Str × List DiskFile)) (key : Str) (f : DiskFile) :
    List (Str × List DiskFile) :=
  match groups with
  | [] => [(key, [f])]
  | (k, fs) :: rest =>
    if k = key then (k, fs ++ [f]) :: rest
    else (k, fs) :: addToGroups rest key f

/-- Group the walked files by basename stem. -/
def groupByStem (files : List DiskFile) : List (Str × List DiskFile) :=
  files.foldl (fun acc f => addToGroups acc f.stem f) []

/-- Concatenation of all group member lists. -/
def groupsJoin : List (Str × List DiskFile) → List DiskFile
  | [] => []
  | g :: gs => g.2 ++ groupsJoin gs

/-- All deletions collected over the groups (the thread pool of the source
only parallelises independent per-group work; the set of deleted paths it
produces is this concatenation). -/
def collectDeletes : List (Str × List DiskFile) → List DiskFile
  | [] => []
  | g :: gs => process_group g.2 ++ collectDeletes gs

/-- The walk filter of `task_dedupe_quality` (`core.py` line 831):
`f.lower().endswith(SUPPORTED_FORMATS)`, expressed on the splitext
extension. -/
def dedupeAudio (walk : List DiskFile) : List DiskFile :=
  walk.filter (fun f => SUPPORTED_FORMATS.contains (strLower f.ext))

/-- All paths `task_dedupe_quality` deletes: the non-keepers of every
stem group. -/
def dedupeDelPaths (walk : List DiskFile) : List Str :=
  (collectDeletes (groupByStem (dedupeAudio walk))).map DiskFile.path

/-- `task_dedupe_quality` (`core.py` lines 782-849): walk the directory
filtering to `SUPPORTED_FORMATS`, group by stem, per group keep the
maximum-quality file and delete the rest from disk and (via `delete_batch`)
from the store. -/
def task_dedupe_quality (walk : List DiskFile) (store : Store) :
    List DiskFile × Store :=
  (walk.filter (fun f => !((dedupeDelPaths walk).contains f.path)),
   MetadataDB.delete_batch store (dedupeDelPaths walk))

/-! ## Short-clip purge (claim C8) -/

/-- A file as seen by the `os.walk` of `task_clean_short`: its path, its bare
filename (for the extension filter), the duration mutagen would report and
whether that read raises. -/
structure ShortScanFile where
  path : Str
  name : Str
  duration : Nat
  readFails : Bool := false
deriving Repr, DecidableEq

/-- The duration `task_clean_short` actually obtains for a file: only `.mp3`
and `.flac` are read; anything else (i.e. `.m4a`) keeps the initial `0`. -/
def clean_short_reads (f : ShortScanFile) : Nat :=
  if strEndsWith (strLower f.name) (str (".mp3"))
      || strEndsWith (strLower f.name) (str (".flac")) then f.duration
  else 0

/-- Whether `task_clean_short` (`core.py` lines 850-884) puts the file on its
delete list: the walk filter accepts `.mp3/.flac/.m4a`; a raised read is
caught and the file skipped; otherwise delete iff `0 < duration < threshold`. -/
def clean_short_marks (threshold : Nat) (f : ShortScanFile) : Bool :=
  if !(strEndsWith (strLower f.name) (str (".mp3"))
      || strEndsWith (strLower f.name) (str (".flac"))
      || strEndsWith (strLower f.name) (str (".m4a"))) then false
  else if (strEndsWith (strLower f.name) (str (".mp3"))
      || strEndsWith (strLower f.name) (str (".flac"))) && f.readFails then false
  else Nat.blt 0 (clean_short_reads f) && Nat.blt (clean_short_reads f) threshold

/-- `task_clean_short`: threshold is
`state.tasks_config["clean_short"].get("min_duration", 60)`; collect the
delete list, remove each file, `delete_batch` the store. -/
def task_clean_short (min_duration : Option Nat) (files : List ShortScanFile)
    (store : Store) : List ShortScanFile × Store × Nat :=
  let threshold := min_duration.getD 60
  let to_delete := files.filter (clean_short_marks threshold)
  let delPaths := to_delete.map ShortScanFile.path
  (files.filter (fun f => !(delPaths.contains f.path)),
   MetadataDB.delete_batch store delPaths,
   to_delete.length)

/-! ## Single-file deletion (claim C10) -/

/-- The state `delete_file` touches: the working set, the store, and the set
of paths existing on disk. -/
structure FsState where
  files : List FileMetadata
  store : Store
  disk : List Str
deriving Repr, DecidableEq

/-- Which of the two fallible operations of `delete_file` raise. -/
structure DeleteOracle where
  remove_raises : Bool := false
  db_raises : Bool := false
deriving Repr, DecidableEq

/-- `delete_file` (`core.py` lines 1114-1124): inside one `try`, remove the
file from disk only if it exists, always delete the store row and drop the
working-set entry, return `True`; any exception is caught, everything mutated
before it stays mutated, and `False` is returned. -/
def delete_file (o : DeleteOracle) (st : FsState) (path : Str) :
    FsState × Bool :=
  if st.disk.contains path && o.remove_raises then (st, false)
  else
    let st1 := { st with disk := st.disk.filter (fun p => p != path) }
    if o.db_raises then (st1, false)
    else ({ st1 with
             store := MetadataDB.delete_by_path st1.store path,
             files := st1.files.filter (fun f => f.path != path) }, true)

/-! ## Concrete sample data (used by witnesses and counterexamples) -/

/-- A stand-in similarity scorer used where a concrete scorer is needed: like
both `fuzz.ratio` and `fuzz.token_set_ratio` it scores identical strings 100;
it scores the distinct strings of the concrete runs below 0 (the real
`token_set_ratio` of those runs is likewise far below the 80 threshold). -/
def eqSim : Str → Str → Nat := fun a b => if a == b then 100 else 0

/-- Sample rows for the store claims. -/
def rowA : FileMetadata :=
  { path := str ("/music/a.mp3"), filename := str ("a.mp3") }

def rowA2 : FileMetadata :=
  { path := str ("/music/a.mp3"), filename := str ("a.mp3"), title := str ("v2") }

def rowA3 : FileMetadata :=
  { path := str ("/music/a.mp3"), filename := str ("a.mp3"), title := str ("v3") }

def rowB : FileMetadata :=
  { path := str ("/music/b.mp3"), filename := str ("b.mp3") }

/-- A store row under the rescanned subtree whose file no longer exists. -/
def staleRow : FileMetadata :=
  { path := str ("/music/x/old.mp3"), filename := str ("old.mp3") }

/-- A record outside the rescanned subtree. -/
def outsideRow : FileMetadata :=
  { path := str ("/other/keep.mp3"), filename := str ("keep.mp3") }

/-- A record found when scanning subtree `/x`. -/
def xRow : FileMetadata :=
  { path := str ("/x/a.mp3"), filename := str ("a.mp3") }

/-- A record found when scanning subtree `/y`. -/
def yRow : FileMetadata :=
  { path := str ("/y/b.mp3"), filename := str ("b.mp3") }

/-- Two records with the same title but thoroughly different artists, hence
equal title keys but very different search texts. -/
def c1r1 : FileMetadata :=
  { path := str ("/m/f1.mp3"), filename := str ("f1.mp3"),
    artist := str ("aaaaaaaaaaaaaaaaaaaa"), title := str ("t"),
    search_text := str ("aaaaaaaaaaaaaaaaaaaa t f1.mp3") }

def c1r2 : FileMetadata :=
  { path := str ("/m/f2.mp3"), filename := str ("f2.mp3"),
    artist := str ("bbbbbbbbbbbbbbbbbbbb"), title := str ("t"),
    search_text := str ("bbbbbbbbbbbbbbbbbbbb t f2.mp3") }

/-- Two singleton candidate groups for the AI-verifier claims. -/
def grpA : List FileMetadata := [rowA]

def grpB : List FileMetadata := [rowB]

/-- The spec's quality-dedup example: `a.mp3` (small) vs `a.flac` (large). -/
def aMp3 : DiskFile :=
  { dir := str ("/music"), stem := str ("a"), ext := str (".mp3"), size := 3000000 }

def aFlac : DiskFile :=
  { dir := str ("/music"), stem := str ("a"), ext := str (".flac"), size := 25000000 }

/-- The store row for the sample `a.mp3`. -/
def aMp3row : FileMetadata :=
  { path := str ("/music/a.mp3"), filename := str ("a.mp3") }

/-- The spec's short-clip example: a 45-second and a 75-second file. -/
def short45 : ShortScanFile :=
  { path := str ("/music/s45.mp3"), name := str ("s45.mp3"), duration := 45 }

def short75 : ShortScanFile :=
  { path := str ("/music/s75.mp3"), name := str ("s75.mp3"), duration := 75 }

/-- Store rows matching the two short-clip sample files. -/
def s45row : FileMetadata :=
  { path := str ("/music/s45.mp3"), filename := str ("s45.mp3") }

def s75row : FileMetadata :=
  { path := str ("/music/s75.mp3"), filename := str ("s75.mp3") }

/-- A state whose disk does not hold `/music/a.mp3` although the store and
working set still do. -/
def ghostState : FsState :=
  { files := [rowA, rowB], store := [rowA, rowB], disk := [str ("/music/b.mp3")] }

/-! ## Helper lemmas -/

theorem strTrim_nil : strTrim [] = [] := rfl

/-! ## Helper lemmas: the store -/

theorem map_path_insertOrReplace (s : Store) (m : FileMetadata) :
    (insertOrReplace s m).map (fun r => r.path) =
      if s.any (fun r => r.path == m.path) then s.map (fun r => r.path)
      else s.map (fun r => r.path) ++ [m.path] := by
  unfold insertOrReplace
  by_cases h : s.any (fun r => r.path == m.path) = true
  · rw [if_pos h, if_pos h, List.map_map]
    apply List.map_congr_left
    intro r _
    simp only [Function.comp]
    by_cases hc : (r.path == m.path) = true
    · simp only [hc, if_true]
      exact (eq_of_beq hc).symm
    · simp [hc]
  · rw [if_neg h, if_neg h, List.map_append]
    rfl

theorem pathsNodup_insertOrReplace (s : Store) (m : FileMetadata)
    (h : pathsNodup s) : pathsNodup (insertOrReplace s m) := by
  unfold pathsNodup at *
  rw [map_path_insertOrReplace]
  by_cases ha : s.any (fun r => r.path == m.path) = true
  · simpa [ha] using h
  · rw [if_neg ha, List.nodup_append]
    refine ⟨h, List.nodup_singleton _, ?_⟩
    intro p hp hm
    rcases List.mem_map.1 hp with ⟨r, hr, hrp⟩
    have hpm : p = m.path := by simpa using hm
    exact ha (List.any_eq_true.2 ⟨r, hr, by simp [hrp, hpm]⟩)

theorem dbGet_insertOrReplace_self (s : Store) (m : FileMetadata) :
    dbGet (insertOrReplace s m) m.path = some m := by
  unfold dbGet insertOrReplace
  by_cases h : s.any (fun r => r.path == m.path) = true
  · rw [if_pos h]
    induction s with
    | nil => simp at h
    | cons r t ih =>
      rw [List.map_cons]
      by_cases hc : (r.path == m.path) = true
      · rw [if_pos hc,
          @List.find?_cons_of_pos _ (fun r => r.path == m.path) m _ (beq_self_eq_true m.path)]
      · rw [if_neg hc, @List.find?_cons_of_neg _ (fun r => r.path == m.path) r _ hc]
        apply ih
        rcases List.any_eq_true.1 h with ⟨x, hx, hxp⟩
        rcases List.mem_cons.1 hx with hx | hx
        · exact absurd (hx ▸ hxp) hc
        · exact List.any_eq_true.2 ⟨x, hx, hxp⟩
  · rw [if_neg h, List.find?_append]
    have hs : List.find? (fun r => r.path == m.path) s = none := by
      rw [List.find?_eq_none]
      intro r hr hrp
      exact h (List.any_eq_true.2 ⟨r, hr, hrp⟩)
    rw [hs,
      @List.find?_cons_of_pos _ (fun r => r.path == m.path) m _ (beq_self_eq_true m.path)]
    rfl

theorem dbGet_insertOrReplace_other (s : Store) (m : FileMetadata) (p : Str)
    (hp : p ≠ m.path) : dbGet (insertOrReplace s m) p = dbGet s p := by
  have h1 : (m.path == p) = false := beq_eq_false_iff_ne.2 fun e => hp e.symm
  unfold dbGet insertOrReplace
  by_cases h : s.any (fun r => r.path == m.path) = true
  · rw [if_pos h]
    clear h
    induction s with
    | nil => rfl
    | cons r t ih =>
      rw [List.map_cons]
      by_cases hc : (r.path == m.path) = true
      · have h2 : ¬ ((r.path == p) = true) := by
          rw [eq_of_beq hc, h1]; exact Bool.false_ne_true
        have hm1 : ¬ ((m.path == p) = true) := by
          rw [h1]; exact Bool.false_ne_true
        rw [if_pos hc, @List.find?_cons_of_neg _ (fun r => r.path == p) m _ hm1,
          @List.find?_cons_of_neg _ (fun r => r.path == p) r _ h2]
        exact ih
      · rw [if_neg hc]
        by_cases h2 : (r.path == p) = true
        · rw [@List.find?_cons_of_pos _ (fun r => r.path == p) r _ h2,
            @List.find?_cons_of_pos _ (fun r => r.path == p) r _ h2]
        · rw [@List.find?_cons_of_neg _ (fun r => r.path == p) r _ h2,
            @List.find?_cons_of_neg _ (fun r => r.path == p) r _ h2]
          exact ih
  · rw [if_neg h, List.find?_append]
    have hm : List.find? (fun r => r.path == p) [m] = none := by
      rw [List.find?_eq_none]
      intro x hx
      rcases List.mem_cons.1 hx with rfl | hx
      · rw [h1]; exact Bool.false_ne_true
      · cases hx
    rw [hm]
    cases List.find? (fun r => r.path == p) s <;> rfl

theorem pathsNodup_foldl (ms : List FileMetadata) :
    ∀ s : Store, pathsNodup s → pathsNodup (ms.foldl insertOrReplace s) := by
  induction ms with
  | nil => exact fun s h => h
  | cons m rest ih => exact fun s h => ih _ (pathsNodup_insertOrReplace s m h)

theorem dbGet_foldl_insertOrReplace (ms : List FileMetadata) :
    ∀ (s : Store) (p : Str),
      dbGet (ms.foldl insertOrReplace s) p =
        match lastWithPath p ms with
        | some x => some x
        | none => dbGet s p := by
  induction ms with
  | nil => intro s p; rfl
  | cons m rest ih =>
    intro s p
    rw [List.foldl_cons, ih]
    cases hr : lastWithPath p rest with
    | some x => simp [lastWithPath, hr]
    | none =>
      simp only [lastWithPath, hr]
      by_cases hc : (m.path == p) = true
      · have hpm : p = m.path := (eq_of_beq hc).symm
        subst hpm
        simp [hc, dbGet_insertOrReplace_self s m]
      · have hne : p ≠ m.path := by
          intro e
          subst e
          exact hc (beq_self_eq_true m.path)
        simp [hc, dbGet_insertOrReplace_other s m p hne]

theorem dbGet_foldl_untouched (ms : List FileMetadata) :
    ∀ (s : Store) (p : Str), (∀ m ∈ ms, m.path ≠ p) →
      dbGet (ms.foldl insertOrReplace s) p = dbGet s p := by
  induction ms with
  | nil => intro s p _; rfl
  | cons m rest ih =>
    intro s p h
    rw [List.foldl_cons, ih _ _ (fun x hx => h x (List.mem_cons.2 (Or.inr hx)))]
    exact dbGet_insertOrReplace_other s m p fun e => h m (List.mem_cons.2 (Or.inl rfl)) e.symm

theorem dbGet_delete_by_path_self (s : Store) (p : Str) :
    dbGet (MetadataDB.delete_by_path s p) p = none := by
  unfold dbGet MetadataDB.delete_by_path
  rw [List.find?_eq_none]
  intro r hr h
  have h2 : (r.path == p) = false := by
    have := (List.mem_filter.1 hr).2
    rwa [bne, Bool.not_eq_true'] at this
  rw [h] at h2
  exact Bool.noConfusion h2

theorem dbGet_delete_batch (s : Store) (ps : List Str) (p : Str) :
    dbGet (MetadataDB.delete_batch s ps) p =
      if ps.contains p then none else dbGet s p := by
  unfold dbGet MetadataDB.delete_batch
  induction s with
  | nil => cases h : ps.contains p <;> simp [h]
  | cons r t ih =>
    rw [List.filter_cons]
    by_cases hk : ps.contains r.path = true
    · have hcond : ¬ ((!(ps.contains r.path)) = true) := by
        rw [hk]; exact Bool.false_ne_true
      rw [if_neg hcond]
      by_cases hp : (r.path == p) = true
      · have hpr : p = r.path := (eq_of_beq hp).symm
        subst hpr
        rw [ih, if_pos hk, if_pos hk]
      · rw [ih]
        by_cases hq : ps.contains p = true
        · rw [if_pos hq, if_pos hq]
        · rw [if_neg hq, if_neg hq,
            @List.find?_cons_of_neg _ (fun r => r.path == p) r _ hp]
    · have hkb : ps.contains r.path = false := by
        cases hv : ps.contains r.path
        · rfl
        · exact absurd hv hk
      have hcond : (!(ps.contains r.path)) = true := by rw [hkb]; rfl
      rw [if_pos hcond]
      by_cases hp : (r.path == p) = true
      · have hpr : p = r.path := (eq_of_beq hp).symm
        subst hpr
        rw [@List.find?_cons_of_pos _ (fun x => x.path == r.path) r _ hp,
          if_neg (by rw [hkb]; exact Bool.false_ne_true),
          @List.find?_cons_of_pos _ (fun x => x.path == r.path) r _ hp]
      · rw [@List.find?_cons_of_neg _ (fun r => r.path == p) r _ hp, ih]
        by_cases hq : ps.contains p = true
        · rw [if_pos hq, if_pos hq]
        · rw [if_neg hq, if_neg hq,
            @List.find?_cons_of_neg _ (fun r => r.path == p) r _ hp]

theorem batch_save_go_some (writeOk : FileMetadata → Bool) (ms : List FileMetadata) :
    ∀ (txn out : Store), MetadataDB.batch_save_go writeOk txn ms = some out →
      out = ms.foldl insertOrReplace txn := by
  induction ms with
  | nil =>
    intro txn out h
    cases h
    rfl
  | cons m rest ih =>
    intro txn out h
    rw [MetadataDB.batch_save_go] at h
    by_cases hw : writeOk m = true
    · rw [if_pos hw] at h
      rw [List.foldl_cons]
      exact ih _ _ h
    · rw [if_neg hw] at h
      cases h

theorem batch_save_go_none_iff (writeOk : FileMetadata → Bool) (ms : List FileMetadata) :
    ∀ txn : Store, (MetadataDB.batch_save_go writeOk txn ms = none ↔
      ∃ m ∈ ms, writeOk m = false) := by
  induction ms with
  | nil =>
    intro txn
    constructor
    · intro h; cases h
    · rintro ⟨m, hm, _⟩; cases hm
  | cons m rest ih =>
    intro txn
    rw [MetadataDB.batch_save_go]
    by_cases hw : writeOk m = true
    · rw [if_pos hw, ih]
      constructor
      · rintro ⟨x, hx, hxw⟩
        exact ⟨x, List.mem_cons.2 (Or.inr hx), hxw⟩
      · rintro ⟨x, hx, hxw⟩
        rcases List.mem_cons.1 hx with rfl | hx
        · rw [hw] at hxw; cases hxw
        · exact ⟨x, hx, hxw⟩
    · rw [if_neg hw]
      constructor
      · intro _
        refine ⟨m, List.mem_cons.2 (Or.inl rfl), ?_⟩
        cases hv : writeOk m
        · rfl
        · exact absurd hv hw
      · intro _; rfl

/-- Claim C3: `MetadataDB.batch_save` is all-or-nothing.  Either no record
write fails and the resulting store carries every record of the batch
(the fold of the upserts), or some write fails, the call raises
(second component `true`), and the store is left exactly as before the call;
it raises exactly when some record's write fails. -/
theorem c3_batch_save_all_or_nothing (writeOk : FileMetadata → Bool) (s : Store)
    (ms : List FileMetadata) :
    (((MetadataDB.batch_save writeOk s ms).2 = false ∧
      (MetadataDB.batch_save writeOk s ms).1 = ms.foldl insertOrReplace s) ∨
     ((MetadataDB.batch_save writeOk s ms).2 = true ∧
      (MetadataDB.batch_save writeOk s ms).1 = s)) ∧
    ((MetadataDB.batch_save writeOk s ms).2 = true ↔ ∃ m ∈ ms, writeOk m = false) := by
  unfold MetadataDB.batch_save
  cases h : MetadataDB.batch_save_go writeOk s ms with
  | some out =>
    refine ⟨Or.inl ⟨rfl, batch_save_go_some writeOk ms s out h⟩, ?_⟩
    simp only []
    constructor
    · intro hfalse; cases hfalse
    · intro hex
      rw [(batch_save_go_none_iff writeOk ms s).2 hex] at h
      cases h
  | none =>
    refine ⟨Or.inr ⟨rfl, rfl⟩, ?_⟩
    simp only []
    constructor
    · intro _
      exact (batch_save_go_none_iff writeOk ms s).1 h
    · intro _; trivial

/-- Claim C4: the store never holds two rows with the same path.  Starting
from any store satisfying the primary-key invariant, any sequence of upserts
preserves it; a read returns the most recently upserted row for the path (or
the untouched old row); re-upserting an existing path replaces the row in
place (the row count does not grow) and a subsequent read returns the new
field values. -/
theorem c4_store_path_unique (s : Store) (ms : List FileMetadata)
    (m : FileMetadata) (p : Str) (h : pathsNodup s) :
    pathsNodup (ms.foldl insertOrReplace s)
    ∧ (dbGet (ms.foldl insertOrReplace s) p =
        match lastWithPath p ms with
        | some x => some x
        | none => dbGet s p)
    ∧ dbGet (insertOrReplace s m) m.path = some m
    ∧ (s.any (fun r => r.path == m.path) = true →
        (insertOrReplace s m).length = s.length) := by
  refine ⟨pathsNodup_foldl ms s h, dbGet_foldl_insertOrReplace ms s p,
    dbGet_insertOrReplace_self s m, ?_⟩
  intro ha
  have := map_path_insertOrReplace s m
  rw [if_pos ha] at this
  have hlen := congrArg List.length this
  simpa using hlen

/-- Witness for C4 at concrete inputs: upserting `rowA2` over a store holding
`rowA` (same path) yields the new values on read and keeps one single row;
upserting `rowA3` again reads back `rowA3`. -/
theorem c4_store_path_unique_witness :
    dbGet ([rowA2].foldl insertOrReplace [rowA]) (str ("/music/a.mp3")) = some rowA2
    ∧ (insertOrReplace [rowA] rowA3).length = 1
    ∧ dbGet (insertOrReplace [rowA] rowA3) rowA3.path = some rowA3 := by
  have h := c4_store_path_unique [rowA] [rowA2] rowA3 (str ("/music/a.mp3"))
    (show (([rowA].map (fun r => r.path)).Nodup) by decide)
  refine ⟨h.2.1.trans (by decide), ?_, h.2.2.1⟩
  have := h.2.2.2 (by decide)
  simpa using this

/-- Claim C5 (amended): an incremental scan on `scan_dir` (a) rebuilds the
working set as the old records outside `scan_dir` plus the newly extracted
ones — so in-memory records under `scan_dir` are dropped first; (b) leaves
every store row outside `scan_dir` unchanged; (c) leaves every store row whose
path was not rescanned unchanged — so stale store rows under `scan_dir` are
NOT removed, only overwritten per path; (d) scanning a disjoint subtree
afterwards preserves the first scan's records in both the working set and the
store. -/
theorem c5_incremental_scan_amended (scan_dir : Str) (found : List FileMetadata)
    (st : WorkingState)
    (hin : ∀ m ∈ found, strStartsWith m.path scan_dir = true) :
    (task_scan_and_group_state scan_dir found st).files =
      st.files.filter (fun f => !(strStartsWith f.path scan_dir)) ++ found
    ∧ (∀ p, strStartsWith p scan_dir = false →
        dbGet (task_scan_and_group_state scan_dir found st).store p = dbGet st.store p)
    ∧ (∀ p, (∀ m ∈ found, m.path ≠ p) →
        dbGet (task_scan_and_group_state scan_dir found st).store p = dbGet st.store p)
    ∧ (∀ (dirY : Str) (foundY : List FileMetadata),
        (∀ m ∈ foundY, strStartsWith m.path dirY = true) →
        (∀ q : Str, strStartsWith q scan_dir = true → strStartsWith q dirY = false) →
        (∀ m ∈ found,
          m ∈ (task_scan_and_group_state dirY foundY
                (task_scan_and_group_state scan_dir found st)).files) ∧
        (∀ p, strStartsWith p scan_dir = true →
          dbGet (task_scan_and_group_state dirY foundY
                  (task_scan_and_group_state scan_dir found st)).store p =
          dbGet (task_scan_and_group_state scan_dir found st).store p)) := by
  refine ⟨rfl, ?_, ?_, ?_⟩
  · intro p hp
    apply dbGet_foldl_untouched
    intro m hm he
    have hx := hin m hm
    rw [he, hp] at hx
    cases hx
  · intro p hp
    exact dbGet_foldl_untouched found st.store p hp
  · intro dirY foundY hinY hdisj
    constructor
    · intro m hm
      unfold task_scan_and_group_state
      apply List.mem_append.2
      apply Or.inl
      apply List.mem_filter.2
      refine ⟨?_, ?_⟩
      · exact List.mem_append.2 (Or.inr hm)
      · rw [hdisj m.path (hin m hm)]
        rfl
    · intro p hp
      apply dbGet_foldl_untouched
      intro m hm he
      have hx := hinY m hm
      rw [he, hdisj p hp] at hx
      cases hx

/-- Two distinct roots of equal length are disjoint: no path starts with
both. -/
theorem disjoint_roots {a b : Str} (hne : a ≠ b) (hlen : a.length = b.length) :
    ∀ q : Str, strStartsWith q a = true → strStartsWith q b = false := by
  intro q ha
  cases hb : strStartsWith q b
  · rfl
  · exfalso
    unfold strStartsWith at ha hb
    have ha2 : a <+: q := List.isPrefixOf_iff_prefix.1 ha
    have hb2 : b <+: q := List.isPrefixOf_iff_prefix.1 hb
    have hab : a <+: b :=
      List.prefix_of_prefix_length_le ha2 hb2 (le_of_eq hlen)
    exact hne (hab.eq_of_length hlen)

/-- Witness for C5 (amended) at concrete inputs: scanning `/x` (finding
`xRow`) and then the disjoint `/y` (finding `yRow`) keeps `outsideRow`'s store
row untouched and keeps `xRow` in the working set and the store. -/
theorem c5_incremental_scan_amended_witness :
    dbGet (task_scan_and_group_state (str ("/x")) [xRow]
      ⟨[outsideRow], [outsideRow]⟩).store (str ("/other/keep.mp3")) = some outsideRow
    ∧ xRow ∈ (task_scan_and_group_state (str ("/y")) [yRow]
        (task_scan_and_group_state (str ("/x")) [xRow]
          ⟨[outsideRow], [outsideRow]⟩)).files := by
  have h := c5_incremental_scan_amended (str ("/x")) [xRow]
    ⟨[outsideRow], [outsideRow]⟩ (by decide)
  constructor
  · exact (h.2.1 (str ("/other/keep.mp3")) (by decide)).trans (by decide)
  · exact ((h.2.2.2 (str ("/y")) [yRow] (by decide)
      (disjoint_roots (by decide) (by decide))).1 xRow (by decide))

/-- Counterexample to C5 as stated: the claim says an incremental scan on
`/music/x` first removes the STORED records whose path is prefixed by
`/music/x`.  Scanning `/music/x` when the directory has become empty removes
`staleRow` from the working set but leaves its row in the store. -/
theorem c5_incremental_scan_counterexample :
    (task_scan_and_group_state (str ("/music/x")) [] ⟨[staleRow], [staleRow]⟩).files = []
    ∧ dbGet (task_scan_and_group_state (str ("/music/x")) []
        ⟨[staleRow], [staleRow]⟩).store (str ("/music/x/old.mp3")) = some staleRow := by
  decide

/-- Claim C10: when neither `os.remove` nor the store delete raises,
`delete_file` returns `True`, the store row for the path is gone and the
working set holds no entry for it — whether or not the path existed on disk
(the store row and working-set entry are removed together). -/
theorem c10_delete_file (o : DeleteOracle) (st : FsState) (path : Str)
    (h1 : o.remove_raises = false) (h2 : o.db_raises = false) :
    (delete_file o st path).2 = true
    ∧ dbGet (delete_file o st path).1.store path = none
    ∧ (∀ f ∈ (delete_file o st path).1.files, f.path ≠ path) := by
  unfold delete_file
  rw [h1, Bool.and_false, if_neg Bool.false_ne_true, h2]
  rw [if_neg Bool.false_ne_true]
  refine ⟨rfl, dbGet_delete_by_path_self _ _, ?_⟩
  intro f hf he
  have := (List.mem_filter.1 hf).2
  rw [bne, Bool.not_eq_true'] at this
  rw [he] at this
  rw [beq_self_eq_true path] at this
  cases this

/-- Witness for C10 at a concrete input: deleting `/music/a.mp3`, a path that
does NOT exist on disk, still returns `True` and still purges both the store
row and the working-set entry. -/
theorem c10_delete_file_witness :
    (delete_file {} ghostState (str ("/music/a.mp3"))).2 = true
    ∧ dbGet (delete_file {} ghostState (str ("/music/a.mp3"))).1.store
        (str ("/music/a.mp3")) = none
    ∧ rowA ∉ (delete_file {} ghostState (str ("/music/a.mp3"))).1.files := by
  have h := c10_delete_file {} ghostState (str ("/music/a.mp3")) rfl rfl
  refine ⟨h.1, h.2.1, ?_⟩
  intro hm
  exact h.2.2 rowA hm (by decide)

theorem task_analyze_results_go_cons (cands : List (List FileMetadata))
    (gid : Int) (d : Bool) (r : Option Str) (rest : List AiResult) :
    task_analyze_results_go cands (⟨gid, d, r⟩ :: rest) =
      if d then
        (if gid < (cands.length : Int) then
          match pyIndex cands gid with
          | some g => ⟨g, r.getD (str ("AI判断重复"))⟩ :: task_analyze_results_go cands rest
          | none => []
        else task_analyze_results_go cands rest)
      else task_analyze_results_go cands rest := rfl

theorem processResults_cons {α : Type} (chunk : List α)
    (gid : Int) (d : Bool) (b : Option Int) (r : Option Str) (vrest : List AiVerdict) :
    AIVerifier.processResults chunk (⟨gid, d, b, r⟩ :: vrest) =
      if d then
        (match pyIndex chunk gid with
        | some g => (r, g, b) :: AIVerifier.processResults chunk vrest
        | none => [])
      else AIVerifier.processResults chunk vrest := rfl

/-- Claim C6 (amended): in `task_analyze_with_gemini` a response entry with
`is_duplicate = false` never confirms anything (so the spec's one-group
`group_id = 0, is_duplicate = false` scenario yields zero confirmations), but
an `is_duplicate = true` entry is range-checked only against the length of the
WHOLE candidate list, not the current batch's range: an id at or above the
total length is skipped, a NEGATIVE id down to `-len` is accepted and confirms
the group counted from the end, and an id below `-len` raises `IndexError`,
dropping the rest of that response; `AIVerifier.verify` in `src/app.py`
performs no range check at all, so an out-of-range id likewise aborts the
rest of the batch's response instead of being ignored. -/
theorem c6_ai_range_amended (cands : List (List FileMetadata)) (res : AiResult)
    (rest : List AiResult) (g : List FileMetadata) :
    (res.is_duplicate = false →
      task_analyze_results_go cands (res :: rest) = task_analyze_results_go cands rest)
    ∧ (res.is_duplicate = true → 0 ≤ res.group_id →
        res.group_id < (cands.length : Int) →
        cands.get? res.group_id.toNat = some g →
        task_analyze_results_go cands (res :: rest) =
          ⟨g, res.reason.getD (str ("AI判断重复"))⟩ :: task_analyze_results_go cands rest)
    ∧ (res.is_duplicate = true → (cands.length : Int) ≤ res.group_id →
        task_analyze_results_go cands (res :: rest) = task_analyze_results_go cands rest)
    ∧ (res.is_duplicate = true → res.group_id < 0 →
        0 ≤ res.group_id + (cands.length : Int) →
        cands.get? (res.group_id + (cands.length : Int)).toNat = some g →
        task_analyze_results_go cands (res :: rest) =
          ⟨g, res.reason.getD (str ("AI判断重复"))⟩ :: task_analyze_results_go cands rest)
    ∧ (res.is_duplicate = true → res.group_id + (cands.length : Int) < 0 →
        task_analyze_results_go cands (res :: rest) = [])
    ∧ (∀ (chunk : List (List FileMetadata)) (v : AiVerdict) (vrest : List AiVerdict),
        v.is_duplicate = true → (chunk.length : Int) ≤ v.group_id →
        AIVerifier.processResults chunk (v :: vrest) = []) := by
  obtain ⟨gid, d, r⟩ := res
  refine ⟨?_, ?_, ?_, ?_, ?_, ?_⟩
  · intro h
    rw [task_analyze_results_go_cons]
    simp only at h
    rw [h, if_neg Bool.false_ne_true]
  · intro hd h0 hlt hget
    simp only at hd h0 hlt hget
    rw [task_analyze_results_go_cons, hd, if_pos rfl, if_pos hlt]
    unfold pyIndex
    rw [if_pos h0, hget]
  · intro hd hge
    simp only at hd hge
    rw [task_analyze_results_go_cons, hd, if_pos rfl,
      if_neg (show ¬ gid < (cands.length : Int) by omega)]
  · intro hd hneg hok hget
    simp only at hd hneg hok hget
    rw [task_analyze_results_go_cons, hd, if_pos rfl,
      if_pos (show gid < (cands.length : Int) by omega)]
    unfold pyIndex
    rw [if_neg (show ¬ (0:Int) ≤ gid by omega), if_pos hok, hget]
  · intro hd hlow
    simp only at hd hlow
    rw [task_analyze_results_go_cons, hd, if_pos rfl,
      if_pos (show gid < (cands.length : Int) by omega)]
    unfold pyIndex
    rw [if_neg (show ¬ (0:Int) ≤ gid by omega),
      if_neg (show ¬ (0:Int) ≤ gid + (cands.length : Int) by omega)]
  · intro chunk v vrest hd hge
    obtain ⟨vgid, vd, vb, vr⟩ := v
    simp only at hd hge
    rw [processResults_cons, hd, if_pos rfl]
    unfold pyIndex
    rw [if_pos (show (0:Int) ≤ vgid by omega)]
    have hnone : chunk.get? vgid.toNat = none := by
      rw [List.get?_eq_none]
      omega
    rw [hnone]

/-- Witness for C6 (amended) at concrete inputs, one per behaviour: the spec's
one-group `is_duplicate=false` scenario confirms nothing; an in-range id
confirms its group; an id beyond the candidate list is skipped; an id below
`-len` empties the response; `src/app.py` aborts on an unchecked
out-of-range id. -/
theorem c6_ai_range_amended_witness :
    task_analyze_results_go [grpA] [⟨0, false, none⟩] = []
    ∧ task_analyze_results_go [grpA, grpB] [⟨0, true, some (str ("r"))⟩] =
        [⟨grpA, str ("r")⟩]
    ∧ task_analyze_results_go [grpA] [⟨1, true, none⟩] = []
    ∧ task_analyze_results_go [grpA] [⟨-2, true, none⟩] = []
    ∧ AIVerifier.processResults [grpA] [⟨(1 : Int), true, none, none⟩] = [] := by
  refine ⟨?_, ?_, ?_, ?_, ?_⟩
  · exact ((c6_ai_range_amended [grpA] ⟨0, false, none⟩ [] grpA).1 rfl).trans rfl
  · exact (((c6_ai_range_amended [grpA, grpB] ⟨0, true, some (str ("r"))⟩ [] grpA).2.1)
      rfl (by decide) (by decide) (by decide)).trans rfl
  · exact (((c6_ai_range_amended [grpA] ⟨1, true, none⟩ [] grpA).2.2.1)
      rfl (by decide)).trans rfl
  · exact ((c6_ai_range_amended [grpA] ⟨-2, true, none⟩ [] grpA).2.2.2.2.1)
      rfl (by decide)
  · exact ((c6_ai_range_amended [grpA] ⟨0, false, none⟩ [] grpA).2.2.2.2.2)
      [grpA] ⟨(1 : Int), true, none, none⟩ [] rfl (by decide)

/-- Counterexample to C6 as stated: the claim says any `group_id` outside the
current batch's range — including negative values — is ignored defensively; on
the two-group batch below, a response entry with `group_id = -1` and
`is_duplicate = true` is NOT ignored: it confirms the LAST group (Python
indexing from the end), producing one ConfirmedDuplicate instead of zero. -/
theorem c6_ai_range_counterexample :
    task_analyze_results_go [grpA, grpB] [⟨-1, true, some (str ("x"))⟩]
      = [⟨grpB, str ("x")⟩]
    ∧ task_analyze_results_go [grpA, grpB] [⟨-1, true, some (str ("x"))⟩] ≠ [] := by
  decide

/-- Claim C2 (amended): when the tags yield no title, (i) `core.py`'s
extractor infers only the title — the whole remainder after the FIRST `" - "`
separator (or the whole stem when no separator exists) — and NEVER assigns the
left part to the artist (the helper's result does not depend on the artist at
all); (ii) `core_optimized.py`'s extractor does assign the left part to the
artist when the artist is unknown, but splits on EVERY `" - "` occurrence and
takes only the second segment as the title (not the whole remainder after the
first separator); (iii) `src/app.py` runs the inference only when BOTH artist
and title are absent, so a file with an artist tag but no title keeps an empty
title. -/
theorem c2_infer_amended (filename artist : Str) (sz : Nat) (path : Str) (a : Str) :
    (strContainsSub (str (" - ")) (splitext filename).1 = true →
      infer_title_from_filename filename artist =
        strIntercalate (str (" - "))
          ((strSplitOn (str (" - ")) (splitext filename).1).drop 1))
    ∧ (strContainsSub (str (" - ")) (splitext filename).1 = false →
        infer_title_from_filename filename artist = (splitext filename).1)
    ∧ infer_title_from_filename filename artist = infer_title_from_filename filename []
    ∧ (strContainsSub (str (" - ")) (splitext (basename path)).1 = true →
        (get_metadata ⟨some sz, none⟩ path).map FileMetadata.artist =
          some (strTrim ((strSplitOn (str (" - ")) (splitext (basename path)).1).headD []))
        ∧ (get_metadata ⟨some sz, none⟩ path).map FileMetadata.title =
          some (strTrim ((strSplitOn (str (" - ")) (splitext (basename path)).1).getD 1 [])))
    ∧ (strContainsSub (str (" - ")) (splitext (basename path)).1 = false →
        (get_metadata ⟨some sz, none⟩ path).map FileMetadata.title =
          some (strTrim (splitext (basename path)).1)
        ∧ (get_metadata ⟨some sz, none⟩ path).map FileMetadata.artist = some [])
    ∧ (a ≠ [] → strEndsWith (strLower path) (str (".mp3")) = true →
        (MusicScanner.get_metadata ⟨some sz, some { artist := [a] }⟩ path).map
          ScanRecord.title = some []) := by
  refine ⟨?_, ?_, ?_, ?_, ?_, ?_⟩
  · intro h
    simp [infer_title_from_filename, h, ite_self]
  · intro h
    simp [infer_title_from_filename, h]
  · simp [infer_title_from_filename, ite_self]
  · intro h
    constructor <;> simp [get_metadata, get_tag_display, h, ite_self]
  · intro h
    constructor <;> simp [get_metadata, get_tag_display, h, ite_self, strTrim_nil]
  · intro ha hmp3
    simp [MusicScanner.get_metadata, hmp3, ha, get_tag_display, ite_self, strTrim_nil]

/-- Witness for C2 (amended) at concrete inputs: `core.py` turns
`"Foo - Bar - Baz.mp3"` into title `"Bar - Baz"` leaving the artist alone,
`core_optimized.py` pulls artist `"Foo"` but title only `"Bar"`, and
`src/app.py` keeps the title empty when an artist tag exists. -/
theorem c2_infer_amended_witness :
    infer_title_from_filename (str ("Foo - Bar - Baz.mp3")) (str ("X")) =
      str ("Bar - Baz")
    ∧ (get_metadata ⟨some 1, none⟩ (str ("/m/Foo - Bar - Baz.mp3"))).map
        FileMetadata.artist = some (str ("Foo"))
    ∧ (get_metadata ⟨some 1, none⟩ (str ("/m/Foo - Bar - Baz.mp3"))).map
        FileMetadata.title = some (str ("Bar"))
    ∧ (MusicScanner.get_metadata ⟨some 1, some { artist := [str ("Ann")] }⟩
        (str ("/m/x.mp3"))).map ScanRecord.title = some [] := by
  refine ⟨?_, ?_, ?_, ?_⟩
  · exact ((c2_infer_amended (str ("Foo - Bar - Baz.mp3")) (str ("X")) 1
      (str ("/m/x.mp3")) (str ("Ann"))).1 (by decide)).trans (by decide)
  · exact (((c2_infer_amended (str ("x")) (str ("X")) 1
      (str ("/m/Foo - Bar - Baz.mp3")) (str ("Ann"))).2.2.2.1 (by decide)).1).trans
      (by decide)
  · exact (((c2_infer_amended (str ("x")) (str ("X")) 1
      (str ("/m/Foo - Bar - Baz.mp3")) (str ("Ann"))).2.2.2.1 (by decide)).2).trans
      (by decide)
  · exact (c2_infer_amended (str ("x")) (str ("X")) 1
      (str ("/m/x.mp3")) (str ("Ann"))).2.2.2.2.2 (by decide) (by decide)

/-- Counterexample to C2 as stated: for the tagless file
`/m/a - b - c.mp3` the claim says the title becomes the right part of the
FIRST `" - "` split, i.e. `"b - c"`; `core_optimized.get_metadata` produces
`"b"`.  And for the tagless `/m/Foo - Bar.mp3` the claim says the artist
becomes `"Foo"`; `core.py`'s extractor leaves the artist empty. -/
theorem c2_infer_counterexample :
    (get_metadata ⟨some 1, none⟩ (str ("/m/a - b - c.mp3"))).map FileMetadata.title
      = some (str ("b"))
    ∧ (get_metadata ⟨some 1, none⟩ (str ("/m/a - b - c.mp3"))).map FileMetadata.title
      ≠ some (str ("b - c"))
    ∧ (AudioMetadataExtractor.extract ⟨some 1, none⟩ (str ("/m/Foo - Bar.mp3"))).artist
      = []
    ∧ (AudioMetadataExtractor.extract ⟨some 1, none⟩ (str ("/m/Foo - Bar.mp3"))).title
      = str ("Bar") := by
  decide

/-- Claim C9 (amended): `core.py`'s `AudioMetadataExtractor.extract` recovers
every read failure locally — with both reads failing it still yields a record
with size 0, empty tags, the filename-inferred title, duration 0 and bitrate
0; a size failure does not disturb the tag fields and a tag failure does not
disturb the size.  But the extractors cited from `core_optimized.py` and
`src/app.py` call `os.path.getsize` outside every `try`, so a size failure
propagates to the caller (whose error branch is therefore reachable); only
their tag-read failures are recovered with defaults. -/
theorem c9_extract_amended (path : Str) (n : Nat) (td : TagData) :
    ((AudioMetadataExtractor.extract ⟨none, none⟩ path).size_mb = 0
      ∧ (AudioMetadataExtractor.extract ⟨none, none⟩ path).artist = []
      ∧ (AudioMetadataExtractor.extract ⟨none, none⟩ path).title =
          strTrim (infer_title_from_filename (basename path) [])
      ∧ (AudioMetadataExtractor.extract ⟨none, none⟩ path).duration = 0
      ∧ (AudioMetadataExtractor.extract ⟨none, none⟩ path).bitrate = 0)
    ∧ ((AudioMetadataExtractor.extract ⟨none, some td⟩ path).artist =
        (AudioMetadataExtractor.extract ⟨some n, some td⟩ path).artist
      ∧ (AudioMetadataExtractor.extract ⟨none, some td⟩ path).size_mb = 0)
    ∧ ((AudioMetadataExtractor.extract ⟨some n, none⟩ path).size_mb = n
      ∧ (AudioMetadataExtractor.extract ⟨some n, none⟩ path).artist = []
      ∧ (AudioMetadataExtractor.extract ⟨some n, none⟩ path).duration = 0
      ∧ (AudioMetadataExtractor.extract ⟨some n, none⟩ path).bitrate = 0)
    ∧ get_metadata ⟨none, some td⟩ path = none
    ∧ MusicScanner.get_metadata ⟨none, some td⟩ path = none
    ∧ (∃ rec, get_metadata ⟨some n, none⟩ path = some rec
        ∧ rec.duration = 0 ∧ rec.bitrate = 0) := by
  refine ⟨⟨?_, ?_, ?_, ?_, ?_⟩, ⟨?_, ?_⟩, ⟨?_, ?_, ?_, ?_⟩, rfl, rfl, ?_⟩
  · simp [AudioMetadataExtractor.extract]
  · simp [AudioMetadataExtractor.extract, get_tag_display, ite_self, strTrim_nil]
  · simp [AudioMetadataExtractor.extract, get_tag_display, ite_self]
  · simp [AudioMetadataExtractor.extract, ite_self]
  · simp [AudioMetadataExtractor.extract, ite_self]
  · simp [AudioMetadataExtractor.extract]
  · simp [AudioMetadataExtractor.extract]
  · simp [AudioMetadataExtractor.extract]
  · simp [AudioMetadataExtractor.extract, get_tag_display, ite_self, strTrim_nil]
  · simp [AudioMetadataExtractor.extract, ite_self]
  · simp [AudioMetadataExtractor.extract, ite_self]
  · refine ⟨_, rfl, ?_, ?_⟩ <;> simp [ite_self]

/-- Counterexample to C9 as stated: the cited `get_metadata` of
`core_optimized.py` and `_get_metadata` of `src/app.py` do NOT return a record
for every path — when the size read fails (file vanished mid-scan), the
exception propagates to the caller instead of being recovered with
defaults. -/
theorem c9_extract_counterexample :
    get_metadata ⟨none, none⟩ (str ("/music/a.mp3")) = none
    ∧ MusicScanner.get_metadata ⟨none, none⟩ (str ("/music/a.mp3")) = none :=
  ⟨rfl, rfl⟩

theorem cluster_go_spec (sim : Str → Str → Nat) (threshold : Nat)
    (key : FileMetadata → Str) :
    ∀ (l : List FileMetadata) (anchor : FileMetadata)
      (grouptail : List FileMetadata) (cands : List (List FileMetadata)),
      cluster_go sim threshold key anchor grouptail cands l =
        cands ++ clusterSpecGo sim threshold key (anchor :: grouptail) l := by
  intro l
  induction l with
  | nil =>
    intro anchor grouptail cands
    rw [cluster_go, clusterSpecGo]
    have e : (2 ≤ (anchor :: grouptail).length) ↔ (1 < (anchor :: grouptail).length) :=
      Iff.rfl
    simp only [e]
    by_cases h : 1 < (anchor :: grouptail).length
    · rw [if_pos h, if_pos h]
    · rw [if_neg h, if_neg h, List.append_nil]
  | cons curr rest ih =>
    intro anchor grouptail cands
    rw [cluster_go, clusterSpecGo]
    have e : (2 ≤ (anchor :: grouptail).length) ↔ (1 < (anchor :: grouptail).length) :=
      Iff.rfl
    simp only [e]
    by_cases h : threshold < sim (key anchor) (key curr)
    · rw [if_pos h, if_pos h, ih, List.cons_append]
    · rw [if_neg h, if_neg h, ih]
      by_cases h2 : 1 < (anchor :: grouptail).length
      · rw [if_pos h2, if_pos h2, List.append_assoc]
      · rw [if_neg h2, if_neg h2, List.nil_append]

/-- Claim C1 (amended): both clustering passes are instances of the algorithm
the claim describes — sort, one left-to-right pass anchored at the first group
member, append on score above the threshold, otherwise emit (iff at least two
members) and re-anchor, trailing group under the same rule — but only
`task_scan_and_group_optimized` uses the claim's parameters (sort/compare key
`search_text`, the token-set scorer, threshold 80); the `core.py` pass
`task_scan_and_group` instead sorts and compares by the lowercased stripped
title (falling back to the filename stem), scores with plain `fuzz.ratio`, and
uses threshold 85.  Both equalities hold for every similarity oracle. -/
theorem c1_cluster_amended (sim : Str → Str → Nat) (files : List FileMetadata) :
    task_scan_and_group_optimized_cluster sim files =
      clusterSpec sim 80 search_text_key files
    ∧ task_scan_and_group_cluster sim files =
      clusterSpec sim 85 title_key files := by
  constructor
  · rw [task_scan_and_group_optimized_cluster, clusterSpec]
    cases pySort (fun a b => strLt (search_text_key a) (search_text_key b)) files with
    | nil => rfl
    | cons f fs =>
      show cluster_go sim 80 search_text_key f [] [] fs =
        clusterSpecGo sim 80 search_text_key [f] fs
      exact (cluster_go_spec sim 80 search_text_key fs f [] []).trans
        (List.nil_append _)
  · rw [task_scan_and_group_cluster, clusterSpec]
    cases pySort (fun a b => strLt (title_key a) (title_key b)) files with
    | nil => rfl
    | cons f fs =>
      show cluster_go sim 85 title_key f [] [] fs =
        clusterSpecGo sim 85 title_key [f] fs
      exact (cluster_go_spec sim 85 title_key fs f [] []).trans
        (List.nil_append _)

/-- Counterexample to C1 as stated: the claim says the clusterer sorts and
compares by `search_text` with token-set similarity and threshold 80.  The
`core.py` clusterer compares lowercased titles with threshold 85 instead: on
two records with identical titles but completely different artists it groups
them (title similarity is 100 for any scorer with `sim s s = 100`, as both
`fuzz.ratio` and `fuzz.token_set_ratio` are), while the claim's algorithm
leaves them apart (their search texts differ, and the real
`fuzz.token_set_ratio` of these two search texts is far below 80, as is the
stand-in scorer's 0). -/
theorem c1_cluster_counterexample :
    task_scan_and_group_cluster eqSim [c1r1, c1r2] = [[c1r1, c1r2]]
    ∧ clusterSpec eqSim 80 search_text_key [c1r1, c1r2] = [] := by
  decide

theorem list_contains_iff {α : Type} [BEq α] [LawfulBEq α] (l : List α) (a : α) :
    l.contains a = true ↔ a ∈ l := List.elem_iff

/-- Claim C8: `task_clean_short` deletes a walked file (from disk and from the
store) iff it passes the extension filter, its duration read does not raise,
and the duration obtained satisfies `0 < d < threshold`; files that fail the
test are kept and their store rows untouched; the mark unfolds to exactly that
condition (a `.m4a` file is never read, keeps duration 0, and is never
deleted); an absent `min_duration` config entry means threshold 60. -/
theorem c8_clean_short (cfg : Option Nat) (files : List ShortScanFile)
    (store : Store) (f : ShortScanFile)
    (hnd : (files.map ShortScanFile.path).Nodup) (hf : f ∈ files) :
    (clean_short_marks (cfg.getD 60) f = true →
      f ∉ (task_clean_short cfg files store).1
      ∧ dbGet (task_clean_short cfg files store).2.1 f.path = none)
    ∧ (clean_short_marks (cfg.getD 60) f = false →
        f ∈ (task_clean_short cfg files store).1
        ∧ dbGet (task_clean_short cfg files store).2.1 f.path = dbGet store f.path)
    ∧ (clean_short_marks (cfg.getD 60) f = true ↔
        ((strEndsWith (strLower f.name) (str (".mp3"))
          || strEndsWith (strLower f.name) (str (".flac"))
          || strEndsWith (strLower f.name) (str (".m4a"))) = true
         ∧ ((strEndsWith (strLower f.name) (str (".mp3"))
          || strEndsWith (strLower f.name) (str (".flac"))) && f.readFails) = false
         ∧ 0 < clean_short_reads f ∧ clean_short_reads f < cfg.getD 60))
    ∧ task_clean_short none files store = task_clean_short (some 60) files store := by
  have hA : clean_short_marks (cfg.getD 60) f = true →
      ((files.filter (clean_short_marks (cfg.getD 60))).map
        ShortScanFile.path).contains f.path = true := by
    intro hm
    exact (list_contains_iff _ _).2
      (List.mem_map.2 ⟨f, List.mem_filter.2 ⟨hf, hm⟩, rfl⟩)
  have hB : clean_short_marks (cfg.getD 60) f = false →
      ((files.filter (clean_short_marks (cfg.getD 60))).map
        ShortScanFile.path).contains f.path = false := by
    intro hm
    cases hv : ((files.filter (clean_short_marks (cfg.getD 60))).map
        ShortScanFile.path).contains f.path
    · rfl
    · exfalso
      rcases List.mem_map.1 ((list_contains_iff _ _).1 hv) with ⟨g, hg, hgp⟩
      rcases List.mem_filter.1 hg with ⟨hgf, hgm⟩
      have hgf2 : g = f := List.inj_on_of_nodup_map hnd hgf hf hgp
      rw [hgf2, hm] at hgm
      cases hgm
  refine ⟨?_, ?_, ?_, rfl⟩
  · intro hm
    constructor
    · intro hmem
      have := (List.mem_filter.1 hmem).2
      rw [hA hm] at this
      cases this
    · show dbGet (MetadataDB.delete_batch store _) f.path = none
      rw [dbGet_delete_batch, if_pos (hA hm)]
  · intro hm
    constructor
    · exact List.mem_filter.2 ⟨hf, by rw [hB hm]; rfl⟩
    · show dbGet (MetadataDB.delete_batch store _) f.path = dbGet store f.path
      rw [dbGet_delete_batch, if_neg (by rw [hB hm]; exact Bool.false_ne_true)]
  · unfold clean_short_marks
    by_cases hext : (strEndsWith (strLower f.name) (str (".mp3"))
        || strEndsWith (strLower f.name) (str (".flac"))
        || strEndsWith (strLower f.name) (str (".m4a"))) = true
    · rw [if_neg (by rw [hext]; simp)]
      by_cases hbr : ((strEndsWith (strLower f.name) (str (".mp3"))
          || strEndsWith (strLower f.name) (str (".flac"))) && f.readFails) = true
      · rw [if_pos hbr]
        constructor
        · intro h; cases h
        · rintro ⟨-, hb, -⟩
          rw [hbr] at hb
          cases hb
      · have hbr' : ((strEndsWith (strLower f.name) (str (".mp3"))
            || strEndsWith (strLower f.name) (str (".flac"))) && f.readFails) = false := by
          cases hv : ((strEndsWith (strLower f.name) (str (".mp3"))
            || strEndsWith (strLower f.name) (str (".flac"))) && f.readFails)
          · rfl
          · exact absurd hv hbr
        rw [if_neg hbr]
        constructor
        · intro h
          rw [Bool.and_eq_true, Nat.blt_eq, Nat.blt_eq] at h
          exact ⟨hext, hbr', h.1, h.2⟩
        · rintro ⟨-, -, h1, h2⟩
          rw [Bool.and_eq_true, Nat.blt_eq, Nat.blt_eq]
          exact ⟨h1, h2⟩
    · have hext' : (strEndsWith (strLower f.name) (str (".mp3"))
          || strEndsWith (strLower f.name) (str (".flac"))
          || strEndsWith (strLower f.name) (str (".m4a"))) = false := by
        cases hv : (strEndsWith (strLower f.name) (str (".mp3"))
          || strEndsWith (strLower f.name) (str (".flac"))
          || strEndsWith (strLower f.name) (str (".m4a")))
        · rfl
        · exact absurd hv hext
      rw [if_pos (by rw [hext']; rfl)]
      constructor
      · intro h; cases h
      · rintro ⟨h1, -⟩
        exact absurd h1 hext

/-- Witness for C8 at the spec's concrete scenario: with threshold 60, the
45-second mp3 is deleted from the walk result and its store row removed, while
the 75-second mp3 in the same directory survives with its store row intact. -/
theorem c8_clean_short_witness :
    short45 ∉ (task_clean_short (some 60) [short45, short75] [s45row, s75row]).1
    ∧ dbGet (task_clean_short (some 60) [short45, short75]
        [s45row, s75row]).2.1 short45.path = none
    ∧ short75 ∈ (task_clean_short (some 60) [short45, short75] [s45row, s75row]).1
    ∧ dbGet (task_clean_short (some 60) [short45, short75]
        [s45row, s75row]).2.1 short75.path = some s75row := by
  have h45 := c8_clean_short (some 60) [short45, short75] [s45row, s75row] short45
    (by decide) (by decide)
  have h75 := c8_clean_short (some 60) [short45, short75] [s45row, s75row] short75
    (by decide) (by decide)
  refine ⟨(h45.1 (by decide)).1, (h45.1 (by decide)).2,
    (h75.2.1 (by decide)).1, ((h75.2.1 (by decide)).2).trans (by decide)⟩

/-! ## Sorting lemmas (for the quality-dedup claim) -/

theorem insertByLt_perm {α : Type} (lt : α → α → Bool) (x : α) :
    ∀ l : List α, (insertByLt lt x l).Perm (x :: l) := by
  intro l
  induction l with
  | nil => exact List.Perm.refl _
  | cons y ys ih =>
    rw [insertByLt]
    by_cases h : lt y x = true
    · rw [if_pos h]
      exact (ih.cons y).trans (List.Perm.swap x y ys)
    · rw [if_neg h]

theorem pySort_perm {α : Type} (lt : α → α → Bool) :
    ∀ l : List α, (pySort lt l).Perm l := by
  intro l
  induction l with
  | nil => exact List.Perm.refl _
  | cons x xs ih =>
    rw [pySort]
    exact (insertByLt_perm lt x (pySort lt xs)).trans (ih.cons x)

theorem insertByLt_pairwise {α : Type} (lt : α → α → Bool)
    (hasym : ∀ a b, lt a b = true → lt b a = false)
    (hneg : ∀ a b c, lt b a = false → lt c b = false → lt c a = false)
    (x : α) :
    ∀ l : List α, List.Pairwise (fun a b => lt b a = false) l →
      List.Pairwise (fun a b => lt b a = false) (insertByLt lt x l) := by
  intro l
  induction l with
  | nil =>
    intro _
    exact List.pairwise_singleton _ _
  | cons y ys ih =>
    intro hp
    rcases List.pairwise_cons.1 hp with ⟨hy, hys⟩
    rw [insertByLt]
    by_cases h : lt y x = true
    · rw [if_pos h]
      apply List.pairwise_cons.2
      refine ⟨?_, ih hys⟩
      intro z hz
      rcases List.mem_cons.1 ((insertByLt_perm lt x ys).mem_iff.1 hz) with rfl | hzy
      · exact hasym y z h
      · exact hy z hzy
    · rw [if_neg h]
      apply List.pairwise_cons.2
      refine ⟨?_, hp⟩
      intro z hz
      have hyx : lt y x = false := by
        cases hv : lt y x
        · rfl
        · exact absurd hv h
      rcases List.mem_cons.1 hz with rfl | hzys
      · exact hyx
      · exact hneg x y z hyx (hy z hzys)

theorem pySort_pairwise {α : Type} (lt : α → α → Bool)
    (hasym : ∀ a b, lt a b = true → lt b a = false)
    (hneg : ∀ a b c, lt b a = false → lt c b = false → lt c a = false) :
    ∀ l : List α, List.Pairwise (fun a b => lt b a = false) (pySort lt l) := by
  intro l
  induction l with
  | nil => exact List.Pairwise.nil
  | cons x xs ih =>
    rw [pySort]
    exact insertByLt_pairwise lt hasym hneg x (pySort lt xs) ih

theorem pairwise_last {α : Type} (R : α → α → Prop) :
    ∀ (l : List α) (h : l ≠ []), List.Pairwise R l →
      ∀ x ∈ l, x = l.getLast h ∨ R x (l.getLast h) := by
  intro l
  induction l with
  | nil => intro h; exact absurd rfl h
  | cons a rest ih =>
    intro h hp x hx
    cases rest with
    | nil =>
      rcases List.mem_cons.1 hx with rfl | hx
      · left; rfl
      · cases hx
    | cons b bs =>
      have hne : (b :: bs) ≠ [] := fun hx => List.noConfusion hx
      have hlast : (a :: b :: bs).getLast h = (b :: bs).getLast hne :=
        List.getLast_cons hne
      rcases List.mem_cons.1 hx with rfl | hx
      · right
        rw [hlast]
        exact (List.pairwise_cons.1 hp).1 _ (List.getLast_mem hne)
      · rw [hlast]
        exact ih hne (List.pairwise_cons.1 hp).2 x hx

theorem pairLt_eq_true_iff (a b : Nat × Nat) :
    pairLt a b = true ↔ (a.1 < b.1 ∨ (a.1 = b.1 ∧ a.2 < b.2)) := by
  unfold pairLt
  rw [Bool.or_eq_true, Bool.and_eq_true, Nat.blt_eq, Nat.blt_eq, beq_iff_eq]

theorem pairLt_asym (a b : Nat × Nat) (h : pairLt a b = true) :
    pairLt b a = false := by
  cases hv : pairLt b a
  · rfl
  · exfalso
    rw [pairLt_eq_true_iff] at h hv
    omega

theorem pairLt_negtrans (a b c : Nat × Nat)
    (h1 : pairLt b a = false) (h2 : pairLt c b = false) : pairLt c a = false := by
  cases hv : pairLt c a
  · rfl
  · exfalso
    have h1' : ¬ pairLt b a = true := by rw [h1]; exact Bool.false_ne_true
    have h2' : ¬ pairLt c b = true := by rw [h2]; exact Bool.false_ne_true
    rw [pairLt_eq_true_iff] at hv h1' h2'
    omega

/-! ## Grouping lemmas (for the quality-dedup claim) -/

theorem groupsJoin_addToGroups (k : Str) (f : DiskFile) :
    ∀ gs : List (Str × List DiskFile),
      (groupsJoin (addToGroups gs k f)).Perm (f :: groupsJoin gs) := by
  intro gs
  induction gs with
  | nil =>
    simp [addToGroups, groupsJoin]
  | cons g gs ih =>
    obtain ⟨k0, fs0⟩ := g
    rw [addToGroups]
    by_cases h : k0 = k
    · rw [if_pos h, groupsJoin, groupsJoin]
      exact (List.perm_append_singleton f fs0).append_right _
    · rw [if_neg h, groupsJoin, groupsJoin]
      exact (ih.append_left fs0).trans List.perm_middle

theorem groupsJoin_foldl :
    ∀ (l : List DiskFile) (acc : List (Str × List DiskFile)),
      (groupsJoin (l.foldl (fun acc f => addToGroups acc f.stem f) acc)).Perm
        (groupsJoin acc ++ l) := by
  intro l
  induction l with
  | nil =>
    intro acc
    rw [List.foldl_nil, List.append_nil]
  | cons f fs ih =>
    intro acc
    rw [List.foldl_cons]
    refine (ih _).trans ?_
    refine ((groupsJoin_addToGroups f.stem f acc).append_right fs).trans ?_
    exact List.perm_middle.symm

theorem groupsJoin_groupByStem (l : List DiskFile) :
    (groupsJoin (groupByStem l)).Perm l := groupsJoin_foldl l []

theorem keys_addToGroups (k : Str) (f : DiskFile) :
    ∀ gs : List (Str × List DiskFile),
      (addToGroups gs k f).map Prod.fst =
        if k ∈ gs.map Prod.fst then gs.map Prod.fst else gs.map Prod.fst ++ [k] := by
  intro gs
  induction gs with
  | nil => simp [addToGroups]
  | cons g gs ih =>
    obtain ⟨k0, fs0⟩ := g
    rw [addToGroups]
    by_cases h : k0 = k
    · rw [if_pos h, List.map_cons, List.map_cons]
      rw [if_pos (List.mem_cons.2 (Or.inl h.symm))]
    · rw [if_neg h, List.map_cons, List.map_cons, ih]
      by_cases hm : k ∈ gs.map Prod.fst
      · rw [if_pos hm, if_pos (List.mem_cons.2 (Or.inr hm))]
      · rw [if_neg hm,
          if_neg (fun hx => (List.mem_cons.1 hx).elim (fun he => h he.symm) hm)]
        rfl

theorem keysNodup_addToGroups (k : Str) (f : DiskFile)
    (gs : List (Str × List DiskFile)) (h : (gs.map Prod.fst).Nodup) :
    ((addToGroups gs k f).map Prod.fst).Nodup := by
  rw [keys_addToGroups]
  by_cases hm : k ∈ gs.map Prod.fst
  · rwa [if_pos hm]
  · rw [if_neg hm, List.nodup_append]
    refine ⟨h, List.nodup_singleton _, ?_⟩
    intro a ha hb
    rcases List.mem_cons.1 hb with rfl | hb
    · exact hm ha
    · cases hb

theorem keysNodup_foldl :
    ∀ (l : List DiskFile) (acc : List (Str × List DiskFile)),
      (acc.map Prod.fst).Nodup →
      ((l.foldl (fun acc f => addToGroups acc f.stem f) acc).map Prod.fst).Nodup := by
  intro l
  induction l with
  | nil => intro acc h; exact h
  | cons f fs ih =>
    intro acc h
    rw [List.foldl_cons]
    exact ih _ (keysNodup_addToGroups f.stem f acc h)

theorem keysNodup_groupByStem (l : List DiskFile) :
    ((groupByStem l).map Prod.fst).Nodup := keysNodup_foldl l [] List.Pairwise.nil

theorem stem_addToGroups (k : Str) (f : DiskFile) (hkf : f.stem = k) :
    ∀ gs : List (Str × List DiskFile),
      (∀ e ∈ gs, ∀ x ∈ e.2, x.stem = e.1) →
      ∀ e ∈ addToGroups gs k f, ∀ x ∈ e.2, x.stem = e.1 := by
  intro gs
  induction gs with
  | nil =>
    intro _ e he x hx
    rw [addToGroups] at he
    rcases List.mem_cons.1 he with rfl | he
    · rcases List.mem_cons.1 hx with rfl | hx
      · exact hkf
      · cases hx
    · cases he
  | cons g gs ih =>
    obtain ⟨k0, fs0⟩ := g
    intro hinv e he x hx
    rw [addToGroups] at he
    by_cases h : k0 = k
    · rw [if_pos h] at he
      rcases List.mem_cons.1 he with rfl | he
      · rcases List.mem_append.1 hx with hx | hx
        · exact hinv (k0, fs0) (List.mem_cons.2 (Or.inl rfl)) x hx
        · rcases List.mem_cons.1 hx with rfl | hx
          · rw [hkf, h]
          · cases hx
      · exact hinv e (List.mem_cons.2 (Or.inr he)) x hx
    · rw [if_neg h] at he
      rcases List.mem_cons.1 he with rfl | he
      · exact hinv (k0, fs0) (List.mem_cons.2 (Or.inl rfl)) x hx
      · exact ih (fun e' he' => hinv e' (List.mem_cons.2 (Or.inr he'))) e he x hx

theorem stem_foldl :
    ∀ (l : List DiskFile) (acc : List (Str × List DiskFile)),
      (∀ e ∈ acc, ∀ x ∈ e.2, x.stem = e.1) →
      ∀ e ∈ l.foldl (fun acc f => addToGroups acc f.stem f) acc,
        ∀ x ∈ e.2, x.stem = e.1 := by
  intro l
  induction l with
  | nil => intro acc h; exact h
  | cons f fs ih =>
    intro acc h
    rw [List.foldl_cons]
    exact ih _ (stem_addToGroups f.stem f rfl acc h)

theorem stem_groupByStem (l : List DiskFile) :
    ∀ e ∈ groupByStem l, ∀ x ∈ e.2, x.stem = e.1 :=
  stem_foldl l [] (fun e he => absurd he (List.not_mem_nil e))

theorem entry_unique :
    ∀ gs : List (Str × List DiskFile), (gs.map Prod.fst).Nodup →
      ∀ (k : Str) (ps ps' : List DiskFile),
        (k, ps) ∈ gs → (k, ps') ∈ gs → ps = ps' := by
  intro gs
  induction gs with
  | nil => intro _ k ps ps' h; cases h
  | cons g t ih =>
    intro hnd k ps ps' h1 h2
    obtain ⟨k0, q⟩ := g
    rw [List.map_cons] at hnd
    have hnd' := List.nodup_cons.1 hnd
    rcases List.mem_cons.1 h1 with he1 | h1 <;> rcases List.mem_cons.1 h2 with he2 | h2
    · rw [Prod.mk.injEq] at he1 he2
      exact he1.2.trans he2.2.symm
    · exfalso
      rw [Prod.mk.injEq] at he1
      exact hnd'.1 (he1.1 ▸ List.mem_map.2 ⟨(k, ps'), h2, rfl⟩)
    · exfalso
      rw [Prod.mk.injEq] at he2
      exact hnd'.1 (he2.1 ▸ List.mem_map.2 ⟨(k, ps), h1, rfl⟩)
    · exact ih hnd'.2 k ps ps' h1 h2

theorem mem_groupsJoin_of_mem_entry :
    ∀ (gs : List (Str × List DiskFile)) (k : Str) (ps : List DiskFile)
      (f : DiskFile), (k, ps) ∈ gs → f ∈ ps → f ∈ groupsJoin gs := by
  intro gs
  induction gs with
  | nil => intro k ps f h; cases h
  | cons g t ih =>
    intro k ps f h hf
    rw [groupsJoin]
    rcases List.mem_cons.1 h with he | h
    · apply List.mem_append.2
      left
      rw [← he]
      exact hf
    · exact List.mem_append.2 (Or.inr (ih k ps f h hf))

theorem groupsJoin_append :
    ∀ a b : List (Str × List DiskFile),
      groupsJoin (a ++ b) = groupsJoin a ++ groupsJoin b := by
  intro a b
  induction a with
  | nil => rfl
  | cons g t ih =>
    rw [List.cons_append, groupsJoin, groupsJoin, ih, List.append_assoc]

theorem entry_paths_nodup (gs : List (Str × List DiskFile))
    (hnd : ((groupsJoin gs).map DiskFile.path).Nodup)
    (k : Str) (ps : List DiskFile) (h : (k, ps) ∈ gs) :
    (ps.map DiskFile.path).Nodup := by
  rcases List.append_of_mem h with ⟨pre, post, rfl⟩
  have hdec : groupsJoin (pre ++ (k, ps) :: post) =
      groupsJoin pre ++ ps ++ groupsJoin post := by
    rw [groupsJoin_append, groupsJoin, List.append_assoc]
  rw [hdec] at hnd
  have hsub : ps.Sublist (groupsJoin pre ++ ps ++ groupsJoin post) :=
    (List.infix_append (groupsJoin pre) ps (groupsJoin post)).sublist
  exact (hsub.map DiskFile.path).nodup hnd

theorem mem_collectDeletes :
    ∀ (gs : List (Str × List DiskFile)) (d : DiskFile),
      d ∈ collectDeletes gs ↔ ∃ e ∈ gs, d ∈ process_group e.2 := by
  intro gs
  induction gs with
  | nil =>
    intro d
    constructor
    · intro h; cases h
    · rintro ⟨e, he, -⟩; cases he
  | cons g t ih =>
    intro d
    rw [collectDeletes, List.mem_append, ih]
    constructor
    · rintro (h | ⟨e, he, hd⟩)
      · exact ⟨g, List.mem_cons.2 (Or.inl rfl), h⟩
      · exact ⟨e, List.mem_cons.2 (Or.inr he), hd⟩
    · rintro ⟨e, he, hd⟩
      rcases List.mem_cons.1 he with rfl | he
      · exact Or.inl hd
      · exact Or.inr ⟨e, he, hd⟩

theorem deleted_characterization (walk : List DiskFile)
    (hjnd : ((groupsJoin (groupByStem (dedupeAudio walk))).map DiskFile.path).Nodup)
    (k : Str) (ps : List DiskFile) (hk : (k, ps) ∈ groupByStem (dedupeAudio walk))
    (q : DiskFile) (hq : q ∈ ps)
    (hdel : q.path ∈ dedupeDelPaths walk) :
    q ∈ (pySort (fun a b => pairLt (quality_score a) (quality_score b)) ps).dropLast
    ∧ 2 ≤ ps.length := by
  have hstem := stem_groupByStem (dedupeAudio walk)
  have hknd := keysNodup_groupByStem (dedupeAudio walk)
  rcases List.mem_map.1 hdel with ⟨d, hd, hdp⟩
  rcases (mem_collectDeletes _ d).1 hd with ⟨e, he, hde⟩
  obtain ⟨k', ps'⟩ := e
  rw [process_group] at hde
  by_cases hlen : ps'.length ≤ 1
  · rw [if_pos hlen] at hde; cases hde
  · rw [if_neg hlen] at hde
    have hd_ps' : d ∈ ps' := by
      have h1 : d ∈ pySort (fun a b => pairLt (quality_score a) (quality_score b)) ps' :=
        (List.dropLast_sublist _).subset hde
      exact (pySort_perm _ ps').mem_iff.1 h1
    have hqj : q ∈ groupsJoin (groupByStem (dedupeAudio walk)) :=
      mem_groupsJoin_of_mem_entry _ k ps q hk hq
    have hdj : d ∈ groupsJoin (groupByStem (dedupeAudio walk)) :=
      mem_groupsJoin_of_mem_entry _ k' ps' d he hd_ps'
    have hdq : d = q := List.inj_on_of_nodup_map hjnd hdj hqj hdp
    have hk'k : k' = k := by
      have h1 : d.stem = k' := hstem (k', ps') he d hd_ps'
      have h2 : q.stem = k := hstem (k, ps) hk q hq
      rw [hdq] at h1
      exact h1.symm.trans h2
    have hps : ps' = ps := entry_unique _ hknd k ps' ps (hk'k ▸ he) hk
    rw [hdq, hps] at hde
    refine ⟨hde, ?_⟩
    rw [hps] at hlen
    omega

/-- Claim C7: quality dedup groups the walked audio files by basename stem,
scores each by `(format rank, byte size)` with flac/wav = 3, m4a/aac = 2,
mp3 = 1; in every group with at least two members there is a kept file that is
maximal under that lexicographic score and stays on disk with its store row
untouched, while every other group member is deleted from disk and from the
store; singleton groups are left untouched. -/
theorem c7_dedupe_quality (walk : List DiskFile) (store : Store)
    (hnd : (walk.map DiskFile.path).Nodup) :
    ∀ (k : Str) (ps : List DiskFile), (k, ps) ∈ groupByStem (dedupeAudio walk) →
      (2 ≤ ps.length →
        ∃ keeper, keeper ∈ ps
          ∧ (∀ q ∈ ps, pairLt (quality_score keeper) (quality_score q) = false)
          ∧ keeper ∈ (task_dedupe_quality walk store).1
          ∧ dbGet (task_dedupe_quality walk store).2 keeper.path =
              dbGet store keeper.path
          ∧ (∀ q ∈ ps, q ≠ keeper →
              q ∉ (task_dedupe_quality walk store).1
              ∧ dbGet (task_dedupe_quality walk store).2 q.path = none))
      ∧ (ps.length ≤ 1 → ∀ q ∈ ps,
          q ∈ (task_dedupe_quality walk store).1
          ∧ dbGet (task_dedupe_quality walk store).2 q.path = dbGet store q.path) := by
  intro k ps hk
  have haudnd : ((dedupeAudio walk).map DiskFile.path).Nodup :=
    List.Nodup.sublist ((List.filter_sublist walk).map DiskFile.path) hnd
  have hjnd : ((groupsJoin (groupByStem (dedupeAudio walk))).map DiskFile.path).Nodup :=
    (((groupsJoin_groupByStem (dedupeAudio walk)).map DiskFile.path).nodup_iff).2 haudnd
  have hmem_walk : ∀ q ∈ ps, q ∈ walk := by
    intro q hq
    have h1 : q ∈ groupsJoin (groupByStem (dedupeAudio walk)) :=
      mem_groupsJoin_of_mem_entry _ k ps q hk hq
    have h2 : q ∈ dedupeAudio walk :=
      (groupsJoin_groupByStem (dedupeAudio walk)).mem_iff.1 h1
    exact (List.mem_filter.1 h2).1
  have hNotDel : ∀ q ∈ ps,
      ((q ∈ (pySort (fun a b => pairLt (quality_score a) (quality_score b))
          ps).dropLast ∧ 2 ≤ ps.length) → False) →
      (dedupeDelPaths walk).contains q.path = false := by
    intro q hq hnot
    cases hv : (dedupeDelPaths walk).contains q.path
    · rfl
    · exact absurd
        (deleted_characterization walk hjnd k ps hk q hq
          ((list_contains_iff _ _).1 hv)) hnot
  have hDel : ∀ q, q ∈ (pySort (fun a b => pairLt (quality_score a)
      (quality_score b)) ps).dropLast → 2 ≤ ps.length →
      (dedupeDelPaths walk).contains q.path = true := by
    intro q hq hlen
    apply (list_contains_iff _ _).2
    apply List.mem_map.2
    refine ⟨q, ?_, rfl⟩
    apply (mem_collectDeletes _ q).2
    refine ⟨(k, ps), hk, ?_⟩
    show q ∈ process_group ps
    rw [process_group, if_neg (by omega)]
    exact hq
  constructor
  · intro hlen
    have hsne : pySort (fun a b => pairLt (quality_score a) (quality_score b)) ps
        ≠ [] := by
      have hle := (pySort_perm (fun a b => pairLt (quality_score a)
        (quality_score b)) ps).length_eq
      intro hx
      rw [hx, List.length_nil] at hle
      omega
    have hkmem_s := List.getLast_mem hsne
    have hkmem : (pySort (fun a b => pairLt (quality_score a) (quality_score b))
        ps).getLast hsne ∈ ps := (pySort_perm _ ps).mem_iff.1 hkmem_s
    have hpair := pySort_pairwise
      (fun a b => pairLt (quality_score a) (quality_score b))
      (fun a b h => pairLt_asym _ _ h)
      (fun a b c h1 h2 => pairLt_negtrans _ _ _ h1 h2) ps
    have hmax : ∀ q ∈ ps,
        pairLt (quality_score ((pySort (fun a b => pairLt (quality_score a)
          (quality_score b)) ps).getLast hsne)) (quality_score q) = false := by
      intro q hq
      have hq_s : q ∈ pySort (fun a b => pairLt (quality_score a)
          (quality_score b)) ps := (pySort_perm _ ps).mem_iff.2 hq
      rcases pairwise_last _ _ hsne hpair q hq_s with he | hr
      · rw [he]
        cases hv : pairLt (quality_score ((pySort (fun a b =>
            pairLt (quality_score a) (quality_score b)) ps).getLast hsne))
            (quality_score ((pySort (fun a b => pairLt (quality_score a)
              (quality_score b)) ps).getLast hsne))
        · rfl
        · exfalso
          rw [pairLt_eq_true_iff] at hv
          omega
      · exact hr
    have hpsnd : (ps.map DiskFile.path).Nodup := entry_paths_nodup _ hjnd k ps hk
    have hsortnd : ((pySort (fun a b => pairLt (quality_score a)
        (quality_score b)) ps).map DiskFile.path).Nodup :=
      (((pySort_perm _ ps).map DiskFile.path).nodup_iff).2 hpsnd
    have hknodel : (dedupeDelPaths walk).contains
        ((pySort (fun a b => pairLt (quality_score a) (quality_score b))
          ps).getLast hsne).path = false := by
      apply hNotDel _ hkmem
      rintro ⟨hkin, -⟩
      have hdecomp := List.dropLast_append_getLast hsne
      rw [← hdecomp, List.map_append, List.nodup_append] at hsortnd
      exact hsortnd.2.2
        (List.mem_map.2 ⟨_, hkin, rfl⟩)
        (List.mem_singleton.2 rfl)
    refine ⟨(pySort (fun a b => pairLt (quality_score a) (quality_score b))
      ps).getLast hsne, hkmem, hmax, ?_, ?_, ?_⟩
    · apply List.mem_filter.2
      refine ⟨hmem_walk _ hkmem, ?_⟩
      rw [hknodel]
      rfl
    · show dbGet (MetadataDB.delete_batch store (dedupeDelPaths walk)) _ = _
      rw [dbGet_delete_batch, if_neg (by rw [hknodel]; exact Bool.false_ne_true)]
    · intro q hq hqne
      have hq_s : q ∈ pySort (fun a b => pairLt (quality_score a)
          (quality_score b)) ps := (pySort_perm _ ps).mem_iff.2 hq
      have hq_drop : q ∈ (pySort (fun a b => pairLt (quality_score a)
          (quality_score b)) ps).dropLast := by
        have hdecomp := List.dropLast_append_getLast hsne
        rw [← hdecomp] at hq_s
        rcases List.mem_append.1 hq_s with h | h
        · exact h
        · exact absurd (List.mem_singleton.1 h) hqne
      have hqdel := hDel q hq_drop hlen
      constructor
      · intro hmem
        have := (List.mem_filter.1 hmem).2
        rw [hqdel] at this
        cases this
      · show dbGet (MetadataDB.delete_batch store (dedupeDelPaths walk)) _ = _
        rw [dbGet_delete_batch, if_pos hqdel]
  · intro hlen q hq
    have hqnodel : (dedupeDelPaths walk).contains q.path = false := by
      apply hNotDel q hq
      rintro ⟨-, h2⟩
      omega
    constructor
    · apply List.mem_filter.2
      refine ⟨hmem_walk q hq, ?_⟩
      rw [hqnodel]
      rfl
    · show dbGet (MetadataDB.delete_batch store (dedupeDelPaths walk)) _ = _
      rw [dbGet_delete_batch, if_neg (by rw [hqnodel]; exact Bool.false_ne_true)]

/-- Witness for C7 at the spec's concrete scenario: on the group
`a.mp3 (3 MB) / a.flac (25 MB)` the task keeps `a.flac` and deletes `a.mp3`
from the walked files and from the store. -/
theorem c7_dedupe_quality_witness :
    aFlac ∈ (task_dedupe_quality [aMp3, aFlac] [aMp3row]).1
    ∧ aMp3 ∉ (task_dedupe_quality [aMp3, aFlac] [aMp3row]).1
    ∧ dbGet (task_dedupe_quality [aMp3, aFlac] [aMp3row]).2 aMp3.path = none := by
  have h := (c7_dedupe_quality [aMp3, aFlac] [aMp3row] (by decide)
    (str ("a")) [aMp3, aFlac] (by decide)).1 (by decide)
  obtain ⟨keeper, hmem, hmax, hin, hdb, hdel⟩ := h
  have hk : keeper = aFlac := by
    rcases List.mem_cons.1 hmem with rfl | hmem2
    · exfalso
      have := hmax aFlac (by decide)
      rw [show pairLt (quality_score aMp3) (quality_score aFlac) = true by decide]
        at this
      cases this
    · rcases List.mem_cons.1 hmem2 with rfl | hmem3
      · rfl
      · cases hmem3
  subst hk
  refine ⟨hin, ?_, ?_⟩
  · exact (hdel aMp3 (by decide) (by decide)).1
  · exact (hdel aMp3 (by decide) (by decide)).2

end MusicDedupe
